import Mathlib

/-!
Verification development for the zehnlabs rebalancer.

The Python sources are shallowly embedded over exact rationals:

* `packages/rebalance-calculator/src/rebalance_calculator/calculator.py`
  (`TradeCalculator`): pure trade computation, embedded as `Except`-valued
  functions over `ℚ`.
* `packages/ibkr-connector/src/ibkr_connector/rebalancer.py`
  (`IBKRRebalancer`): orchestration, embedded as a pure function of a broker
  environment that also returns the trace of broker calls.
* `packages/ibkr-connector/src/ibkr_connector/client.py`
  (`_fetch_prices_with_retry`, `get_multiple_market_prices`).
* `event-processor/app/services/replacement_service.py`
  (`apply_replacements_with_scaling`).
* `event-broker/app/services/pdt_protection_service.py`
  (`is_execution_allowed`).
* `event-processor/app/core/event_processor.py` together with
  `event-processor/app/services/redis_queue_service.py`: the event
  dispatcher, embedded as a transition system.

Python machine notions are made explicit: `float` becomes `ℚ` (with `none`
standing for a missing value or NaN where the code checks for those),
`round` becomes round-half-to-even (`pyRound`), `int(...)` becomes
truncation toward zero (`pyInt`), raised exceptions become `Except.error`.
-/

namespace ZRebal

/-- Floor on `ℚ`, written so that it evaluates by kernel reduction. -/
def ratFloor (q : ℚ) : ℤ := q.num / q.den

theorem ratFloor_eq_floor (q : ℚ) : ratFloor q = ⌊q⌋ := by
  rw [Rat.floor_def]; rfl

/-- Python `int(q)` on a rational: truncation toward zero. -/
def pyInt (q : ℚ) : ℤ :=
  if q < 0 then -ratFloor (-q) else ratFloor q

theorem pyInt_eq (q : ℚ) : pyInt q = if q < 0 then ⌈q⌉ else ⌊q⌋ := by
  unfold pyInt
  rw [ratFloor_eq_floor, ratFloor_eq_floor, Int.floor_neg, neg_neg]

/-- Python `round(q)` (banker's rounding: round half to even). -/
def pyRound (q : ℚ) : ℤ :=
  let f : ℤ := ratFloor q
  let frac : ℚ := q - f
  if frac < 1/2 then f
  else if 1/2 < frac then f + 1
  else if f % 2 = 0 then f else f + 1

/-- Python `round(q, 2)`: round to two decimal places, half to even. -/
def pyRound2 (q : ℚ) : ℚ :=
  (pyRound (q * 100) : ℚ) / 100

/-! ## Data model (`broker_connector_base/models.py`) -/

/-- `Trade.order_type` field; the code uses the strings 'MARKET' and 'LIMIT'. -/
inductive OrderType where
  | MARKET
  | LIMIT
deriving Repr, DecidableEq

/-- `broker_connector_base.Trade` (pydantic). `quantity` is a signed integer
number of shares (negative = sell). -/
structure Trade where
  symbol : String
  quantity : ℤ
  current_shares : ℚ
  target_value : ℚ
  current_value : ℚ
  price : ℚ
  order_type : OrderType
  order_id : Option ℕ := none
deriving Repr, DecidableEq

/-- `broker_connector_base.ContractPrice`. The fields are Python floats; a
`none` stands for a missing value or NaN (the code checks
`not x or x <= 0 or math.isnan(x)`). -/
structure ContractPrice where
  symbol : String
  bid : Option ℚ
  ask : Option ℚ
  last : Option ℚ
  close : Option ℚ
deriving Repr, DecidableEq

/-- `broker_connector_base.AccountPosition`. -/
structure AccountPosition where
  symbol : String
  quantity : ℚ
  market_price : ℚ
  market_value : ℚ
deriving Repr, DecidableEq

/-- `broker_connector_base.AccountSnapshot`. -/
structure AccountSnapshot where
  account_id : String
  total_value : ℚ
  cash_balance : ℚ
  settled_cash : ℚ
  positions : List AccountPosition
deriving Repr, DecidableEq

/-- `broker_connector_base.AllocationItem` (`allocation` is a fraction). -/
structure AllocationItem where
  symbol : String
  allocation : ℚ
deriving Repr, DecidableEq

/-- The part of `broker_connector_base.AccountConfig` the calculator reads. -/
structure AccountConfig where
  account_id : String
  cash_reserve_percent : ℚ
deriving Repr, DecidableEq

/-- The part of `app_config.TradingConfig` the embedded code reads
(`app-config/src/app_config/models.py`). -/
structure TradingConfig where
  minimum_cash_reserve_usd : ℚ
  commission_rate : ℚ
  max_account_utilization : ℚ
  buy_slippage_percent : ℚ
  allocation_threshold_percent : ℚ
deriving Repr, DecidableEq

/-- `TradingConfig.commission_divisor` property: `1 + rate`. -/
def TradingConfig.commission_divisor (c : TradingConfig) : ℚ :=
  1 + c.commission_rate

/-- `TradingConfig.buy_slippage_multiplier` property: `1 + percent/100`. -/
def TradingConfig.buy_slippage_multiplier (c : TradingConfig) : ℚ :=
  1 + c.buy_slippage_percent / 100

/-- The default values declared in `app_config/models.py`. -/
def defaultTradingConfig : TradingConfig where
  minimum_cash_reserve_usd := 100
  commission_rate := 1/100
  max_account_utilization := 995/1000
  buy_slippage_percent := 1/2
  allocation_threshold_percent := 1/2

/-- `TradeCalculator.calculate_trades` phase argument. -/
inductive Phase where
  | sell
  | buy
  | all
deriving Repr, DecidableEq

/-- `rebalance_calculator.models.TradeCalculationResult`. -/
structure TradeCalculationResult where
  trades : List Trade
  warnings : List String
deriving Repr, DecidableEq

/-! ## Dictionary built by comprehension

`{x.key: x for x in xs}` keeps the *last* entry for a duplicated key; a
lookup therefore searches the reversed list. -/

/-- Lookup in a Python dict built by `{key(x): x for x in xs}`. -/
def dictLookup (key : α → String) (xs : List α) (s : String) : Option α :=
  xs.reverse.find? (fun x => key x == s)

/-- Python truthiness-plus-validity check used throughout the code:
`x` is usable iff it is present (not None/NaN) and `> 0`. -/
def validPx : Option ℚ → Option ℚ
  | none => none
  | some b => if b ≤ 0 then none else some b

/-! ## TradeCalculator (`rebalance_calculator/calculator.py`) -/

/-- The warning message emitted for a fractional position that cannot be
liquidated through the broker API (text abbreviated, keyed by symbol). -/
def fractionalWarning (symbol : String) : String :=
  "Position " ++ symbol ++ " cannot be liquidated via API"

/-- Loop body of `TradeCalculator._calculate_liquidation_trades`: walk the
positions, selling every position with positive quantity whose symbol is not
an allocation target; positions between 0 and 1 share produce a warning
instead of a trade (the warning only outside the buy phase). -/
def liquidationLoop (target_symbols : List String)
    (price_map : String → Option ContractPrice) (phase : Phase) :
    List AccountPosition → Except String (List Trade × List String)
  | [] => .ok ([], [])
  | position :: rest =>
    if position.symbol ∈ target_symbols ∨ ¬ 0 < position.quantity then
      liquidationLoop target_symbols price_map phase rest
    else
      match price_map position.symbol with
      | none => .error "No price data. Cannot liquidate position without valid price."
      | some price_data =>
        match validPx price_data.bid with
        | none => .error "Invalid bid price. Cannot liquidate position."
        | some current_price =>
          let current_shares := position.quantity
          if 0 < current_shares ∧ current_shares < 1 then
            match liquidationLoop target_symbols price_map phase rest with
            | .error e => .error e
            | .ok (trades, warnings) =>
              if phase ≠ Phase.buy then
                .ok (trades, fractionalWarning position.symbol :: warnings)
              else
                .ok (trades, warnings)
          else
            match liquidationLoop target_symbols price_map phase rest with
            | .error e => .error e
            | .ok (trades, warnings) =>
              .ok ({ symbol := position.symbol
                     quantity := pyInt (-current_shares)
                     current_shares := current_shares
                     target_value := 0
                     current_value := current_shares * current_price
                     price := current_price
                     order_type := OrderType.MARKET } :: trades, warnings)

/-- `TradeCalculator._calculate_liquidation_trades`. -/
def calculate_liquidation_trades (snapshot : AccountSnapshot)
    (allocations : List AllocationItem)
    (price_map : String → Option ContractPrice) (phase : Phase) :
    Except String (List Trade × List String) :=
  liquidationLoop (allocations.map (·.symbol)) price_map phase snapshot.positions

/-- `TradeCalculator._get_trade_price`: ask with slippage for buys, bid for
sells. -/
def get_trade_price (cfg : TradingConfig) (bid ask : ℚ) (value_difference : ℚ) : ℚ :=
  if 0 < value_difference then ask * cfg.buy_slippage_multiplier else bid

/-- `TradeCalculator._meets_allocation_threshold`: the allocation drift is
compared on display percentages, not dollars. -/
def meets_allocation_threshold (cfg : TradingConfig)
    (current_value total_value target_percent : ℚ) : Bool :=
  let current_percent : ℚ := if 0 < total_value then current_value / total_value * 100 else 0
  let allocation_diff := |target_percent * 100 - current_percent|
  if allocation_diff < cfg.allocation_threshold_percent then false else true

/-- Loop body of `TradeCalculator._calculate_rebalance_trades`. -/
def rebalanceLoop (cfg : TradingConfig) (available_value total_value : ℚ)
    (position_map : String → Option AccountPosition)
    (price_map : String → Option ContractPrice) (phase : Phase) :
    List AllocationItem → Except String (List Trade)
  | [] => .ok []
  | allocation :: rest =>
    let symbol := allocation.symbol
    let target_percent := allocation.allocation
    let target_value := available_value * target_percent
    let current_shares : ℚ :=
      match position_map symbol with
      | some p => p.quantity
      | none => 0
    match price_map symbol with
    | none => .error "No price data. Rebalance aborted."
    | some price_data =>
      match validPx price_data.bid with
      | none => .error "Invalid bid price. Rebalance aborted."
      | some bid =>
        match validPx price_data.ask with
        | none => .error "Invalid ask price. Rebalance aborted."
        | some ask =>
          let current_price := (bid + ask) / 2
          let current_value := current_shares * current_price
          let value_difference := target_value - current_value
          let trade_price := get_trade_price cfg bid ask value_difference
          let exact_shares := value_difference / trade_price
          let shares_to_trade : ℤ := pyRound exact_shares
          match rebalanceLoop cfg available_value total_value position_map price_map phase rest with
          | .error e => .error e
          | .ok trades =>
            if meets_allocation_threshold cfg current_value total_value target_percent = false then
              .ok trades
            else if phase = Phase.sell ∧ 0 ≤ shares_to_trade then
              .ok trades
            else if phase = Phase.buy ∧ shares_to_trade ≤ 0 then
              .ok trades
            else if shares_to_trade ≠ 0 then
              .ok ({ symbol := symbol
                     quantity := shares_to_trade
                     current_shares := current_shares
                     target_value := target_value
                     current_value := current_value
                     price := pyRound2 trade_price
                     order_type := if 0 < shares_to_trade then OrderType.LIMIT
                                   else OrderType.MARKET } :: trades)
            else
              .ok trades

/-- `TradeCalculator._calculate_rebalance_trades`. -/
def calculate_rebalance_trades (cfg : TradingConfig)
    (allocations : List AllocationItem) (available_value total_value : ℚ)
    (position_map : String → Option AccountPosition)
    (price_map : String → Option ContractPrice) (phase : Phase) :
    Except String (List Trade) :=
  rebalanceLoop cfg available_value total_value position_map price_map phase allocations

/-! ### Stable sorting

Python `list.sort(key=...)` is a stable ascending sort. We model it by
stable insertion: `le y x` reads "y may stay in front of x", so an element
is inserted behind every earlier element whose key is `≤` its own. -/

/-- Insert `x` behind every element `y` of the (sorted) list with `le y x`. -/
def stableInsert (le : α → α → Bool) (x : α) : List α → List α
  | [] => [x]
  | y :: ys => if le y x then y :: stableInsert le x ys else x :: y :: ys

/-- Stable insertion sort with respect to `le` (a total preorder test). -/
def stableSortBy (le : α → α → Bool) (l : List α) : List α :=
  l.foldl (fun acc x => stableInsert le x acc) []

/-- Sort key of `TradeCalculator._sort_trades_by_priority`: sells first (most
negative quantity first), then buys by descending allocation. -/
def tradeSortKey (allocation_map : String → ℚ) (t : Trade) : ℕ × ℚ :=
  if t.quantity < 0 then (0, (t.quantity : ℚ)) else (1, -(allocation_map t.symbol))

/-- Lexicographic comparison of sort keys as a Bool. -/
def keyLE (k1 k2 : ℕ × ℚ) : Bool :=
  decide (k1.1 < k2.1 ∨ (k1.1 = k2.1 ∧ k1.2 ≤ k2.2))

/-- `TradeCalculator._sort_trades_by_priority`. -/
def sort_trades_by_priority (trades : List Trade) (allocations : List AllocationItem) :
    List Trade :=
  let allocation_map : String → ℚ := fun s =>
    match dictLookup (·.symbol) allocations s with
    | some a => a.allocation
    | none => 0
  stableSortBy (fun a b => keyLE (tradeSortKey allocation_map a) (tradeSortKey allocation_map b))
    trades

/-- Estimated dollar cost of a trade, `t.quantity * t.price`. -/
def tcost (t : Trade) : ℚ := (t.quantity : ℚ) * t.price

/-- List enumeration with explicit start index (Python `enumerate`). -/
def enumIdx (start : ℕ) : List α → List (ℕ × α)
  | [] => []
  | x :: xs => (start, x) :: enumIdx (start + 1) xs

/-- The fine-tuning pass of `_apply_cash_constraint_scaling`: a *single* walk
over the scaled trades with quantity > 1, sorted by descending dollar value,
decrementing each visited trade by one share while the running total still
exceeds the available cash.  Returns the indices that get decremented. -/
def fineTunePass (available : ℚ) : ℚ → List (ℕ × Trade) → List ℕ
  | _, [] => []
  | total, (i, t) :: rest =>
    if total ≤ available then []
    else if 1 < t.quantity then i :: fineTunePass available (total - t.price) rest
    else fineTunePass available total rest

/-- Scale one trade (`for trade in trades` body of the scaling loop): trades
with quantity ≤ 0 or exactly 1 share are fixed, the rest get
`max(1, int(1 + (original_quantity - 1) * scaling_factor))`. -/
def scaleTrade (scaling_factor : ℚ) (t : Trade) : Trade :=
  if t.quantity ≤ 0 ∨ t.quantity = 1 then t
  else { t with quantity := max 1 (pyInt (1 + ((t.quantity : ℚ) - 1) * scaling_factor)) }

/-- The fine-tuning block of `_apply_cash_constraint_scaling`: sort the
scaled trades with more than one share by descending dollar value and walk
that list once, decrementing each visited trade while the running total
still exceeds the available cash. -/
def fineTuneTrades (available_cash total_scaled_cost : ℚ) (scaled_trades : List Trade) :
    List Trade :=
  let scaleable_scaled :=
    stableSortBy (fun a b => decide (tcost b.2 ≤ tcost a.2))
      ((enumIdx 0 scaled_trades).filter (fun p => 1 < p.2.quantity))
  let dec := fineTunePass available_cash total_scaled_cost scaleable_scaled
  (enumIdx 0 scaled_trades).map (fun p =>
    if p.1 ∈ dec then { p.2 with quantity := p.2.quantity - 1 } else p.2)

/-- The scaling body of `_apply_cash_constraint_scaling`: scale every trade,
recompute the total, and fine-tune if it still exceeds the available cash. -/
def scalingMain (available_cash scaling_factor : ℚ) (trades : List Trade) : List Trade :=
  let scaled_trades := trades.map (scaleTrade scaling_factor)
  let total_scaled_cost := ((scaled_trades.filter (fun t => 0 < t.quantity)).map tcost).sum
  if available_cash < total_scaled_cost then
    fineTuneTrades available_cash total_scaled_cost scaled_trades
  else
    scaled_trades

/-- `TradeCalculator._apply_cash_constraint_scaling`. -/
def apply_cash_constraint_scaling (cfg : TradingConfig) (trades : List Trade)
    (snapshot : AccountSnapshot) (allocations : List AllocationItem) : List Trade :=
  let buy_trades := trades.filter (fun t => 0 < t.quantity)
  let total_buy_cost := (buy_trades.map tcost).sum
  let min_reserve := cfg.minimum_cash_reserve_usd
  let available_cash : ℚ :=
    if snapshot.cash_balance < min_reserve then 0
    else (snapshot.cash_balance - min_reserve) / cfg.commission_divisor
  let target_symbols := allocations.map (·.symbol)
  let current_symbols := (snapshot.positions.filter (fun p => 0 < p.quantity)).map (·.symbol)
  let missing_symbols := target_symbols.filter (fun s => s ∉ current_symbols)
  if available_cash ≤ 0 ∧ missing_symbols = [] then
    trades.filter (fun t => t.quantity ≤ 0)
  else
    let total_account_value := snapshot.total_value
    let available_cash :=
      if total_account_value * cfg.max_account_utilization < total_buy_cost then
        min available_cash (total_account_value * cfg.max_account_utilization)
      else available_cash
    let fixed_cost :=
      (((trades.filter (fun t => t.quantity ≤ 0 ∨ t.quantity = 1)).filter
          (fun t => 0 < t.quantity)).map tcost).sum
    let scaleable_cost := ((buy_trades.filter (fun t => 1 < t.quantity)).map tcost).sum
    let target_scaleable_cost := available_cash - fixed_cost
    let scaling_factor : ℚ :=
      if 0 < scaleable_cost then target_scaleable_cost / scaleable_cost else 1
    scalingMain available_cash scaling_factor trades

/-- `TradeCalculator.calculate_trades`. -/
def calculate_trades (cfg : TradingConfig) (snapshot : AccountSnapshot)
    (allocations : List AllocationItem) (market_prices : List ContractPrice)
    (account_config : AccountConfig) (phase : Phase) :
    Except String TradeCalculationResult :=
  let total_value := snapshot.total_value
  let cash_reserve := account_config.cash_reserve_percent / 100
  let available_value := total_value * (1 - cash_reserve)
  let position_map := dictLookup (·.symbol) snapshot.positions
  let price_map := dictLookup (·.symbol) market_prices
  match calculate_liquidation_trades snapshot allocations price_map phase with
  | .error e => .error e
  | .ok (liquidation_trades, warnings) =>
    match calculate_rebalance_trades cfg allocations available_value total_value
        position_map price_map phase with
    | .error e => .error e
    | .ok rebalance_trades =>
      let trades := liquidation_trades ++ rebalance_trades
      let trades := sort_trades_by_priority trades allocations
      let trades :=
        if phase = Phase.buy ∨ phase = Phase.all then
          apply_cash_constraint_scaling cfg trades snapshot allocations
        else trades
      .ok { trades := trades, warnings := warnings }

/-! ## IBKRRebalancer (`ibkr_connector/rebalancer.py`)

`rebalance_account` is embedded as a pure function of a broker environment
`RebEnv`; besides the `RebalanceResult` it returns the trace of the broker
calls it made (order cancellations and order placements), which is how the
theorems speak about "orders placed". -/

/-- Order statuses as returned by `get_order_status` (after `.upper()`). -/
inductive OrdStatus where
  | filled
  | cancelled
  | apiCancelled
  | inactive
  | working
deriving Repr, DecidableEq

/-- `TERMINAL_STATES` of `_wait_for_orders_complete`. -/
def isTerminalStatus : OrdStatus → Bool
  | .filled | .cancelled | .apiCancelled | .inactive => true
  | .working => false

/-- `FAILED_STATES` of `_wait_for_orders_complete`. -/
def isFailedStatus : OrdStatus → Bool
  | .cancelled | .apiCancelled | .inactive => true
  | .filled | .working => false

/-- An open order as returned by `get_open_orders` (only the id is used). -/
structure OpenOrderM where
  order_id : ℕ
deriving Repr, DecidableEq

/-- Broker environment for one `rebalance_account` run.  `snapshots k` is the
result of the `k`-th `get_account_snapshot` call; `order_status oid r` is what
`get_order_status oid` returns at the `r`-th poll round of the wait loop that
owns order `oid` (`none` models a falsy status string); `cancel_kills oid`
tells whether the gateway actually removes open order `oid` when it is asked
to cancel it; `max_polls` is the poll budget `order_timeout_seconds /
order_status_check_interval_seconds`. -/
structure RebEnv where
  allocations : List AllocationItem
  snapshots : ℕ → AccountSnapshot
  market_prices : List ContractPrice
  open_orders : List OpenOrderM
  cancel_kills : ℕ → Bool
  order_status : ℕ → ℕ → Option OrdStatus
  max_polls : ℕ

/-- One broker call made by the orchestrator. -/
inductive BrokerCall where
  | cancelOrder (oid : ℕ)
  | placeSellOrder (t : Trade)
  | placeBuyOrder (t : Trade)
deriving Repr, DecidableEq

/-- Is this trace entry an order placement? -/
def isPlacement : BrokerCall → Bool
  | .placeSellOrder _ | .placeBuyOrder _ => true
  | .cancelOrder _ => false

/-- Is this trace entry an order cancellation? -/
def isCancellation : BrokerCall → Bool
  | .cancelOrder _ => true
  | _ => false

/-- `broker_connector_base.RebalanceResult`. -/
structure RebalanceResult where
  orders : List Trade
  total_value : ℚ
  cash_balance : Option ℚ := none
  success : Bool
  error : Option String := none
  warnings : List String := []
deriving Repr, DecidableEq

/-- The `except` branch of `rebalance_account`. -/
def failResult (e : String) : RebalanceResult :=
  { orders := [], total_value := 0, success := false, error := some e }

/-- The polling loop of `_wait_for_orders_complete`: one step per status
sweep, bounded by the `max_polls` fuel (the wall-clock timeout).  A round is
complete when every polled status is falsy or terminal; the loop then raises
if any status is a failed state. -/
def waitLoop (status : ℕ → ℕ → Option OrdStatus) (ids : List ℕ) :
    ℕ → ℕ → Except String Unit
  | 0, _ => .error "Order execution timeout"
  | fuel + 1, r =>
    let allComplete := ids.all (fun oid =>
      match status oid r with
      | some st => isTerminalStatus st
      | none => true)
    let failed := ids.filter (fun oid =>
      match status oid r with
      | some st => isFailedStatus st
      | none => false)
    if allComplete then
      if failed.isEmpty then .ok () else .error "Orders failed"
    else
      waitLoop status ids fuel (r + 1)

/-- `IBKRRebalancer._wait_for_orders_complete` (an empty order list returns
immediately). -/
def wait_for_orders_complete (env : RebEnv) (ids : List ℕ) : Except String Unit :=
  if ids.isEmpty then .ok () else waitLoop env.order_status ids env.max_polls 0

/-- Assign consecutive order ids starting at `start` (the broker-returned
`order_result.order_id` written back onto each placed trade). -/
def assignIds (start : ℕ) : List Trade → List Trade
  | [] => []
  | t :: rest => { t with order_id := some start } :: assignIds (start + 1) rest

/-- A buy skipped by the affordability check, as recorded in
`skipped_insufficient_cash`. -/
structure SkippedBuy where
  trade : Trade
  shortfall : ℚ
  is_missing : Bool
  allocation_pct : ℚ
deriving Repr, DecidableEq

/-- The buy-phase affordability loop of `rebalance_account`: walk the buy
orders, skipping any whose estimated cost exceeds the running available cash
and deducting the cost of every accepted order from it.  Returns the accepted
orders, the skip records, and the remaining cash. -/
def selectAffordableBuys (position_map : String → Option AccountPosition)
    (allocation_map : String → ℚ) :
    ℚ → List Trade → List Trade × List SkippedBuy × ℚ
  | available, [] => ([], [], available)
  | available, t :: rest =>
    let estimated_cost := tcost t
    if available < estimated_cost then
      let out := selectAffordableBuys position_map allocation_map available rest
      let is_missing : Bool :=
        match position_map t.symbol with
        | some p => decide (¬ 0 < p.quantity)
        | none => true
      (out.1, { trade := t, shortfall := estimated_cost - available,
                is_missing := is_missing,
                allocation_pct := allocation_map t.symbol * 100 } :: out.2.1, out.2.2)
    else
      let out := selectAffordableBuys position_map allocation_map (available - estimated_cost) rest
      (t :: out.1, out.2.1, out.2.2)

/-- Warning recorded for a skipped buy whose symbol is missing from the
portfolio (text abbreviated, keyed by symbol). -/
def missingWarning (symbol : String) : String :=
  "Missing symbol " ++ symbol ++ " could not be purchased"

/-- Info warning recorded when buys of already-held symbols were skipped. -/
def optimizationIncompleteWarning : String :=
  "Portfolio optimization incomplete"

/-- `IBKRRebalancer.rebalance_account`, with the broker-call trace. -/
def rebalance_account (cfg : TradingConfig) (account : AccountConfig) (env : RebEnv) :
    RebalanceResult × List BrokerCall :=
  let snapshot := env.snapshots 0
  match calculate_trades cfg snapshot env.allocations env.market_prices account Phase.all with
  | .error e => (failResult e, [])
  | .ok result =>
    let warnings := result.warnings
    let cancelCalls := env.open_orders.map (fun o => BrokerCall.cancelOrder o.order_id)
    let sell_orders := assignIds 0 (result.trades.filter (fun t => t.quantity < 0))
    let trace1 := cancelCalls ++ sell_orders.map BrokerCall.placeSellOrder
    match wait_for_orders_complete env (sell_orders.map (fun t => t.order_id.getD 0)) with
    | .error e => (failResult e, trace1)
    | .ok _ =>
      let snapshot2 := env.snapshots 1
      match calculate_trades cfg snapshot2 env.allocations env.market_prices account Phase.buy with
      | .error e => (failResult e, trace1)
      | .ok buy_result =>
        let warnings := warnings ++ buy_result.warnings
        let buy_orders := buy_result.trades.filter (fun t => 0 < t.quantity)
        if buy_orders.isEmpty then
          let final_snapshot := env.snapshots 2
          ({ orders := sell_orders, total_value := final_snapshot.total_value,
             cash_balance := some final_snapshot.cash_balance,
             success := true, warnings := warnings }, trace1)
        else
          let available_cash : ℚ :=
            if snapshot2.cash_balance < cfg.minimum_cash_reserve_usd then 0
            else (snapshot2.cash_balance - cfg.minimum_cash_reserve_usd) / cfg.commission_divisor
          let position_map := dictLookup (·.symbol) snapshot2.positions
          let allocation_map : String → ℚ := fun s =>
            match dictLookup (·.symbol) env.allocations s with
            | some a => a.allocation
            | none => 0
          let sel := selectAffordableBuys position_map allocation_map available_cash buy_orders
          let skipped_missing := sel.2.1.filter (·.is_missing)
          let skipped_existing := sel.2.1.filter (fun s => ¬ s.is_missing)
          let warnings := warnings ++ skipped_missing.map (fun s => missingWarning s.trade.symbol)
          let warnings :=
            if skipped_existing.isEmpty then warnings
            else warnings ++ [optimizationIncompleteWarning]
          let orders_to_execute := assignIds sell_orders.length sel.1
          let trace2 := trace1 ++ orders_to_execute.map BrokerCall.placeBuyOrder
          match wait_for_orders_complete env (orders_to_execute.map (fun t => t.order_id.getD 0)) with
          | .error e => (failResult e, trace2)
          | .ok _ =>
            let final_snapshot := env.snapshots 2
            ({ orders := sell_orders ++ orders_to_execute,
               total_value := final_snapshot.total_value,
               cash_balance := some final_snapshot.cash_balance,
               success := true, warnings := warnings }, trace2)

/-! ## IBKRClient market data (`ibkr_connector/client.py`) -/

/-- One raw quote as returned by `reqTickersAsync` for a symbol; `none`
models a missing value or NaN. -/
structure TickerData where
  bid : Option ℚ
  ask : Option ℚ
  last : Option ℚ
  close : Option ℚ
deriving Repr, DecidableEq

/-- The part of `app_config.IBKRConfig` the embedded client reads. -/
structure IBKRConfig where
  market_data_max_retries : ℕ
  synthetic_ask_offset_usd : ℚ
deriving Repr, DecidableEq

/-- One pass of `_fetch_prices_with_retry` over the pending symbols: the
symbols whose quote has a valid bid turn into `ContractPrice`s (with a
synthetic ask when the ask is invalid), the others stay pending. -/
def processTickers (cfg : IBKRConfig) (tick : String → TickerData) :
    List String → List ContractPrice × List String
  | [] => ([], [])
  | s :: rest =>
    let out := processTickers cfg tick rest
    match validPx (tick s).bid with
    | none => (out.1, s :: out.2)
    | some b =>
      let ask_price : ℚ :=
        match validPx (tick s).ask with
        | some a => a
        | none => b + cfg.synthetic_ask_offset_usd
      ({ symbol := s, bid := some b, ask := some ask_price,
         last := some ((validPx (tick s).last).getD 0),
         close := some ((validPx (tick s).close).getD 0) } :: out.1, out.2)

/-- The attempt loop of `_fetch_prices_with_retry`.  `tick k s` is the quote
IBKR returns for symbol `s` on attempt `k`.  Returns the successful prices
(in order of success), the symbols still pending, and the list of symbol
batches requested (one entry per attempt made). -/
def fetchLoop (cfg : IBKRConfig) (tick : ℕ → String → TickerData) :
    ℕ → ℕ → List String → List ContractPrice →
    List ContractPrice × List String × List (List String)
  | 0, _, pending, successful => (successful, pending, [])
  | fuel + 1, attempt, pending, successful =>
    if pending.isEmpty then (successful, pending, [])
    else
      let pr := processTickers cfg (tick attempt) pending
      let out := fetchLoop cfg tick fuel (attempt + 1) pr.2 (successful ++ pr.1)
      (out.1, out.2.1, pending :: out.2.2)

/-- `IBKRClient._fetch_prices_with_retry` (result and request trace). -/
def fetch_prices_with_retry (cfg : IBKRConfig) (tick : ℕ → String → TickerData)
    (symbols : List String) : Except String (List ContractPrice) × List (List String) :=
  let out := fetchLoop cfg tick (cfg.market_data_max_retries + 1) 0 symbols []
  (if out.2.1.isEmpty then .ok out.1
   else .error "Batch pricing failed: IBKR did not return valid bid prices",
   out.2.2)

/-- `IBKRClient.get_multiple_market_prices`.  `cache s` is the cached price
for `s` when a cache entry within the TTL exists; `qualifies s` tells whether
`s` resolves to a tradable contract. -/
def get_multiple_market_prices (cfg : IBKRConfig) (tick : ℕ → String → TickerData)
    (qualifies : String → Bool) (cache : String → Option ContractPrice)
    (symbols : List String) (use_cache : Bool) : Except String (List ContractPrice) :=
  let prices := if use_cache then symbols.filterMap cache else []
  let symbols_to_fetch :=
    if use_cache then symbols.filter (fun s => (cache s).isNone) else symbols
  if symbols_to_fetch.isEmpty then .ok prices
  else if ¬ symbols_to_fetch.all qualifies then
    .error "Batch pricing system failure"
  else
    match (fetch_prices_with_retry cfg tick symbols_to_fetch).1 with
    | .ok fetched => .ok (prices ++ fetched)
    | .error _ => .error "Batch pricing system failure"

/-! ## ReplacementService (`event-processor/app/services/replacement_service.py`) -/

/-- `app.models.rebalance_data.TargetAllocation` (fraction 0..1). -/
structure TargetAllocation where
  symbol : String
  allocation_percent : ℚ
deriving Repr, DecidableEq

/-- `ReplacementRule{source, target, scale}`. -/
structure ReplacementRule where
  source : String
  target : String
  scale : ℚ
deriving Repr, DecidableEq

/-- Add `v` under key `s` in a Python dict modelled as an ordered
association list (first-insertion order, later additions accumulate). -/
def addToAssoc : List (String × ℚ) → String → ℚ → List (String × ℚ)
  | [], s, v => [(s, v)]
  | (s1, v1) :: rest, s, v =>
    if s1 = s then (s1, v1 + v) :: rest else (s1, v1) :: addToAssoc rest s v

/-- Step 3 of `apply_replacements_with_scaling`: consolidate duplicate
symbols, summing their fractions, keeping first-occurrence order. -/
def consolidate (l : List TargetAllocation) : List TargetAllocation :=
  (l.foldl (fun m a => addToAssoc m a.symbol a.allocation_percent) []).map
    (fun p => { symbol := p.1, allocation_percent := p.2 })

/-- `ReplacementService.apply_replacements_with_scaling` of the
event-processor (`replacement_sets` maps a set name to its rules). -/
def apply_replacements_with_scaling (replacement_sets : List (String × List ReplacementRule))
    (allocations : List TargetAllocation) (replacement_set_name : Option String) :
    List TargetAllocation :=
  match replacement_set_name with
  | none => allocations
  | some nm =>
    match dictLookup (·.1) replacement_sets nm with
    | none => allocations
    | some named_rules =>
      let rules := named_rules.2
      if rules.isEmpty then allocations
      else
        let lookupRule := dictLookup (·.source) rules
        let modified := allocations.map (fun a =>
          match lookupRule a.symbol with
          | some r => { symbol := r.target, allocation_percent := a.allocation_percent * r.scale }
          | none => a)
        let replaced_symbols := allocations.filterMap (fun a => (lookupRule a.symbol).map (·.target))
        let total_excess := (allocations.filterMap (fun a =>
          (lookupRule a.symbol).map
            (fun r => a.allocation_percent * r.scale - a.allocation_percent))).sum
        let modified :=
          if 0 < total_excess then
            let non_replaced_total :=
              ((modified.filter (fun a => a.symbol ∉ replaced_symbols)).map
                (·.allocation_percent)).sum
            if 0 < non_replaced_total then
              let target_non_replaced_total := non_replaced_total - total_excess
              let target_non_replaced_total :=
                if target_non_replaced_total < 0 then (1/10) * non_replaced_total
                else target_non_replaced_total
              let scale_factor := target_non_replaced_total / non_replaced_total
              modified.map (fun a =>
                if a.symbol ∉ replaced_symbols then
                  { symbol := a.symbol, allocation_percent := a.allocation_percent * scale_factor }
                else a)
            else modified
          else modified
        consolidate modified

/-! ## PDTProtectionService (`event-broker/app/services/pdt_protection_service.py`) -/

/-- Parse outcome of the `next_execution` field: a valid ISO timestamp
(modelled as an integer instant) or a string `fromisoformat` rejects. -/
inductive TsField where
  | malformed
  | valid (t : ℤ)
deriving Repr, DecidableEq

/-- State of one account's PDT record file. -/
inductive PDTFile where
  | absent
  | corrupt
  | record (next_execution : Option TsField)
deriving Repr, DecidableEq

/-- `app.models.PDTCheckResult`. -/
structure PDTCheckResult where
  allowed : Bool
  next_allowed_time : Option ℤ := none
deriving Repr, DecidableEq

/-- `PDTProtectionService.is_execution_allowed` on the parsed file state. -/
def is_execution_allowed (file : PDTFile) (now : ℤ) : PDTCheckResult :=
  match file with
  | .absent => { allowed := true }
  | .corrupt => { allowed := true }
  | .record none => { allowed := true }
  | .record (some .malformed) => { allowed := true }
  | .record (some (.valid next_execution)) =>
    if next_execution ≤ now then { allowed := true }
    else { allowed := false, next_allowed_time := some next_execution }

/-- `is_execution_allowed` with the PDT store passed explicitly; the check
only reads, so the store is returned unchanged. -/
def is_execution_allowed_store (store : String → PDTFile) (account_id : String) (now : ℤ) :
    (String → PDTFile) × PDTCheckResult :=
  (store, is_execution_allowed (store account_id) now)

/-! ## EventDispatcher (`event-processor/app/core/event_processor.py` and
`event-processor/app/services/redis_queue_service.py`)

The dispatcher is embedded as a transition system over the Redis-held state:
the active (deduplication) set, the main queue, the delayed set and the set
of in-flight executions. -/

/-- The fields of an event the dispatcher keys on. -/
structure EventM where
  event_id : String
  account_id : String
  exec_command : String
deriving Repr, DecidableEq

/-- The deduplication key `accountId:command`. -/
def eventKey (e : EventM) : String × String := (e.account_id, e.exec_command)

/-- Dispatcher state: `active` is `active_events_set`, `main_queue` is
`rebalance_queue`, `delayed` is `delayed_execution_set` (with execution
timestamps), `in_flight` are the events currently being processed. -/
structure DispatcherState where
  active : List (String × String)
  main_queue : List EventM
  delayed : List (EventM × ℤ)
  in_flight : List EventM
deriving Repr, DecidableEq

/-- Outcome of `command.execute` as seen by `process_event`
(`CommandStatus.SUCCESS`, a failure, or `CommandStatus.DELAYED` with the
next execution time, the command itself having already moved the event to
the delayed queue). -/
inductive CommandOutcome where
  | success
  | failed
  | delayedUntil (t : ℤ)
deriving Repr, DecidableEq

/-- Dispatcher transitions: an external submission, the main loop starting a
queued event, `process_event` completing an in-flight event with a command
outcome, and the periodic delayed-queue sweep. -/
inductive DispatcherAction where
  | submit (e : EventM)
  | start (e : EventM)
  | complete (e : EventM) (outcome : CommandOutcome)
  | sweep (now : ℤ)
deriving Repr, DecidableEq

/-- Add-if-absent on the active set (Redis `sadd`). -/
def saddKey (active : List (String × String)) (k : String × String) :
    List (String × String) :=
  if k ∈ active then active else active ++ [k]

/-- One dispatcher transition.

The `submit` case is *modelled from the spec*: the producer-side
`QueueService` wrapper (called `remove_from_queued` / `get_next_event` by
`event_processor.py`) is not among the sources; per the spec an incoming
request for a key already in the active set is dropped, otherwise the key is
added and the event queued.

The `complete` cases follow `EventProcessor.process_event`: on
`CommandStatus.SUCCESS` the key is removed from the active set; every other
status — *including `CommandStatus.DELAYED`*, for which the command has
already added the event to the delayed queue
(`RedisQueueService.move_to_delayed`) — falls into the `else` branch and
runs `_handle_failed_event`, which also removes the key from the active set.

The `sweep` case follows `RedisQueueService.process_delayed_queue`: every
due entry is pushed back onto the main queue, its key is `sadd`-ed into the
active set, and the entry leaves the delayed set. -/
def dispatcherStep (s : DispatcherState) : DispatcherAction → DispatcherState
  | .submit e =>
    if eventKey e ∈ s.active then s
    else { s with active := s.active ++ [eventKey e], main_queue := s.main_queue ++ [e] }
  | .start e =>
    if e ∈ s.main_queue then
      { s with main_queue := s.main_queue.erase e, in_flight := s.in_flight ++ [e] }
    else s
  | .complete e outcome =>
    if e ∈ s.in_flight then
      match outcome with
      | .success =>
        { s with in_flight := s.in_flight.erase e, active := s.active.erase (eventKey e) }
      | .failed =>
        { s with in_flight := s.in_flight.erase e, active := s.active.erase (eventKey e) }
      | .delayedUntil t =>
        { s with in_flight := s.in_flight.erase e,
                 delayed := s.delayed ++ [(e, t)],
                 active := s.active.erase (eventKey e) }
    else s
  | .sweep now =>
    let ready := s.delayed.filter (fun p => p.2 ≤ now)
    { s with delayed := s.delayed.filter (fun p => ¬ p.2 ≤ now),
             main_queue := s.main_queue ++ ready.map (·.1),
             active := ready.foldl (fun acc p => saddKey acc (eventKey p.1)) s.active }

/-- Run the dispatcher over a list of actions. -/
def runDispatcher (s : DispatcherState) (acts : List DispatcherAction) : DispatcherState :=
  acts.foldl dispatcherStep s

/-- The empty dispatcher state. -/
def emptyDispatcherState : DispatcherState :=
  { active := [], main_queue := [], delayed := [], in_flight := [] }

end ZRebal

deriving instance DecidableEq for Except

set_option maxRecDepth 100000

namespace ZRebal

/-! ## Lemmas about the embedded list operations -/

theorem mem_stableInsert (le : α → α → Bool) (x a : α) :
    ∀ l : List α, a ∈ stableInsert le x l ↔ a = x ∨ a ∈ l
  | [] => by simp [stableInsert]
  | y :: ys => by
    simp only [stableInsert]
    by_cases h : le y x
    · simp only [if_pos h, List.mem_cons, mem_stableInsert le x a ys]
      tauto
    · simp only [if_neg h, List.mem_cons]

theorem mem_foldl_stableInsert (le : α → α → Bool) (a : α) :
    ∀ (l acc : List α),
      a ∈ l.foldl (fun acc x => stableInsert le x acc) acc ↔ a ∈ acc ∨ a ∈ l
  | [], acc => by simp
  | x :: xs, acc => by
    simp only [List.foldl_cons, List.mem_cons,
      mem_foldl_stableInsert le a xs (stableInsert le x acc), mem_stableInsert]
    tauto

theorem mem_stableSortBy (le : α → α → Bool) (a : α) (l : List α) :
    a ∈ stableSortBy le l ↔ a ∈ l := by
  unfold stableSortBy
  rw [mem_foldl_stableInsert]
  simp

theorem enumIdx_snd_mem (a : ℕ × α) :
    ∀ (s : ℕ) (l : List α), a ∈ enumIdx s l → a.2 ∈ l
  | s, [], h => by simp [enumIdx] at h
  | s, x :: xs, h => by
    simp only [enumIdx, List.mem_cons] at h
    rcases h with h | h
    · subst h; simp
    · exact List.mem_cons_of_mem x (enumIdx_snd_mem a (s + 1) xs h)

theorem enumIdx_fst_ge (a : ℕ × α) :
    ∀ (s : ℕ) (l : List α), a ∈ enumIdx s l → s ≤ a.1
  | s, [], h => by simp [enumIdx] at h
  | s, x :: xs, h => by
    simp only [enumIdx, List.mem_cons] at h
    rcases h with h | h
    · subst h; simp
    · have := enumIdx_fst_ge a (s + 1) xs h
      omega

theorem enumIdx_inj (i : ℕ) (a b : α) :
    ∀ (s : ℕ) (l : List α), (i, a) ∈ enumIdx s l → (i, b) ∈ enumIdx s l → a = b
  | s, [], ha, _ => by simp [enumIdx] at ha
  | s, x :: xs, ha, hb => by
    simp only [enumIdx, List.mem_cons, Prod.mk.injEq] at ha hb
    rcases ha with ⟨hi1, ha⟩ | ha <;> rcases hb with ⟨hi2, hb⟩ | hb
    · rw [ha, hb]
    · exfalso; have := enumIdx_fst_ge (i, b) (s + 1) xs hb; simp at this; omega
    · exfalso; have := enumIdx_fst_ge (i, a) (s + 1) xs ha; simp at this; omega
    · exact enumIdx_inj i a b (s + 1) xs ha hb

theorem fineTunePass_mem (available : ℚ) (i : ℕ) :
    ∀ (total : ℚ) (cands : List (ℕ × Trade)), i ∈ fineTunePass available total cands →
      ∃ t, (i, t) ∈ cands ∧ 1 < t.quantity
  | total, [], h => by simp [fineTunePass] at h
  | total, (j, t) :: rest, h => by
    simp only [fineTunePass] at h
    split at h
    · simp at h
    · split at h
      · rcases List.mem_cons.mp h with h | h
        · subst h
          exact ⟨t, List.mem_cons_self _ _, by assumption⟩
        · obtain ⟨t2, ht2, hq⟩ := fineTunePass_mem available i (total - t.price) rest h
          exact ⟨t2, List.mem_cons_of_mem _ ht2, hq⟩
      · obtain ⟨t2, ht2, hq⟩ := fineTunePass_mem available i total rest h
        exact ⟨t2, List.mem_cons_of_mem _ ht2, hq⟩

/-! ## Structural lemmas about the calculator -/

theorem pyInt_neg_of_one_le {s : ℚ} (h : 1 ≤ s) : pyInt (-s) < 0 := by
  rw [pyInt_eq, if_pos (by linarith), Int.ceil_neg]
  have h1 : (1 : ℤ) ≤ ⌊s⌋ := by
    rw [Int.le_floor]
    exact_mod_cast h
  omega

/-- Every trade produced by the liquidation loop is a sell of a symbol that
is not an allocation target. -/
theorem liquidationLoop_trades (targets : List String) (pm : String → Option ContractPrice)
    (phase : Phase) :
    ∀ (ps : List AccountPosition) (ts : List Trade) (ws : List String),
      liquidationLoop targets pm phase ps = .ok (ts, ws) →
      ∀ t ∈ ts, t.quantity < 0 ∧ t.symbol ∉ targets
  | [], ts, ws, h => by
    simp only [liquidationLoop] at h
    cases h
    simp
  | p :: rest, ts, ws, h => by
    simp only [liquidationLoop] at h
    by_cases hg : p.symbol ∈ targets ∨ ¬ 0 < p.quantity
    · rw [if_pos hg] at h
      exact fun t ht => liquidationLoop_trades targets pm phase rest ts ws h t ht
    · rw [if_neg hg] at h
      push_neg at hg
      obtain ⟨hsym, hq⟩ := hg
      cases hpm : pm p.symbol with
      | none => simp only [hpm] at h; cases h
      | some pd =>
        simp only [hpm] at h
        cases hbid : validPx pd.bid with
        | none => simp only [hbid] at h; cases h
        | some bid =>
          simp only [hbid] at h
          cases hrec : liquidationLoop targets pm phase rest with
          | error e =>
            simp only [hrec] at h
            by_cases hfrac : 0 < p.quantity ∧ p.quantity < 1
            · rw [if_pos hfrac] at h; cases h
            · rw [if_neg hfrac] at h; cases h
          | ok pr =>
            obtain ⟨trades, warnings⟩ := pr
            simp only [hrec] at h
            by_cases hfrac : 0 < p.quantity ∧ p.quantity < 1
            · rw [if_pos hfrac] at h
              by_cases hph : phase ≠ Phase.buy
              · rw [if_pos hph] at h
                cases h
                exact fun t ht => liquidationLoop_trades targets pm phase rest _ _ hrec t ht
              · rw [if_neg hph] at h
                cases h
                exact fun t ht => liquidationLoop_trades targets pm phase rest _ _ hrec t ht
            · rw [if_neg hfrac] at h
              cases h
              intro t ht
              rcases List.mem_cons.mp ht with rfl | ht
              · refine ⟨?_, hsym⟩
                have h1 : 1 ≤ p.quantity := by
                  rcases lt_or_ge p.quantity 1 with hlt | hge
                  · exact absurd ⟨hq, hlt⟩ hfrac
                  · exact hge
                exact pyInt_neg_of_one_le h1
              · exact liquidationLoop_trades targets pm phase rest _ _ hrec t ht

/-- Sign of the trades produced by the target (rebalance) pass, per phase. -/
theorem rebalanceLoop_trades (cfg : TradingConfig) (av tv : ℚ)
    (posm : String → Option AccountPosition) (pm : String → Option ContractPrice)
    (phase : Phase) :
    ∀ (allocs : List AllocationItem) (ts : List Trade),
      rebalanceLoop cfg av tv posm pm phase allocs = .ok ts →
      ∀ t ∈ ts, (phase = Phase.sell → t.quantity < 0) ∧ (phase = Phase.buy → 0 < t.quantity)
  | [], ts, h => by
    simp only [rebalanceLoop] at h
    cases h
    simp
  | alloc :: rest, ts, h => by
    simp only [rebalanceLoop] at h
    cases hpm : pm alloc.symbol with
    | none => simp only [hpm] at h; cases h
    | some pd =>
      simp only [hpm] at h
      cases hbid : validPx pd.bid with
      | none => simp only [hbid] at h; cases h
      | some bid =>
        simp only [hbid] at h
        cases hask : validPx pd.ask with
        | none => simp only [hask] at h; cases h
        | some ask =>
          simp only [hask] at h
          cases hrec : rebalanceLoop cfg av tv posm pm phase rest with
          | error e =>
            simp only [hrec] at h
            cases h
          | ok trades =>
            simp only [hrec] at h
            have ih := fun t ht => rebalanceLoop_trades cfg av tv posm pm phase rest trades hrec t ht
            by_cases hth : meets_allocation_threshold cfg
                ((match posm alloc.symbol with | some p => p.quantity | none => 0) *
                  ((bid + ask) / 2)) tv alloc.allocation = false
            · rw [if_pos hth] at h
              cases h
              exact ih
            · rw [if_neg hth] at h
              by_cases hsell : phase = Phase.sell ∧ 0 ≤ pyRound
                  ((av * alloc.allocation -
                    (match posm alloc.symbol with | some p => p.quantity | none => 0) *
                      ((bid + ask) / 2)) /
                    get_trade_price cfg bid ask
                      (av * alloc.allocation -
                        (match posm alloc.symbol with | some p => p.quantity | none => 0) *
                          ((bid + ask) / 2)))
              · rw [if_pos hsell] at h
                cases h
                exact ih
              · rw [if_neg hsell] at h
                by_cases hbuy : phase = Phase.buy ∧ pyRound
                    ((av * alloc.allocation -
                      (match posm alloc.symbol with | some p => p.quantity | none => 0) *
                        ((bid + ask) / 2)) /
                      get_trade_price cfg bid ask
                        (av * alloc.allocation -
                          (match posm alloc.symbol with | some p => p.quantity | none => 0) *
                            ((bid + ask) / 2))) ≤ 0
                · rw [if_pos hbuy] at h
                  cases h
                  exact ih
                · rw [if_neg hbuy] at h
                  split at h
                  · cases h
                    intro t ht
                    rcases List.mem_cons.mp ht with rfl | ht
                    · refine ⟨fun hp => ?_, fun hp => ?_⟩
                      · dsimp only
                        by_contra hq2
                        exact hsell ⟨hp, by omega⟩
                      · dsimp only
                        by_contra hq2
                        exact hbuy ⟨hp, by omega⟩
                    · exact ih t ht
                  · cases h
                    exact ih

theorem scaleTrade_symbol (f : ℚ) (t : Trade) : (scaleTrade f t).symbol = t.symbol := by
  unfold scaleTrade
  split <;> rfl

theorem scaleTrade_cases (f : ℚ) (t : Trade) :
    scaleTrade f t = t ∨ 1 ≤ (scaleTrade f t).quantity := by
  unfold scaleTrade
  split
  · exact Or.inl rfl
  · exact Or.inr (le_max_left 1 _)

/-- Every trade coming out of the fine-tuning block is a scaled trade, either
unchanged or decremented by one share from a quantity above 1. -/
theorem mem_fineTuneTrades (available total : ℚ) (scaled : List Trade) :
    ∀ t2 ∈ fineTuneTrades available total scaled,
      ∃ tS ∈ scaled, t2.symbol = tS.symbol ∧
        (t2 = tS ∨ (1 < tS.quantity ∧ t2.quantity = tS.quantity - 1)) := by
  intro t2 ht2
  unfold fineTuneTrades at ht2
  rcases List.mem_map.mp ht2 with ⟨⟨i, tS⟩, hp, rfl⟩
  refine ⟨tS, enumIdx_snd_mem (i, tS) 0 scaled hp, ?_⟩
  dsimp only
  split
  · -- decremented
    next hdec =>
      obtain ⟨tC, htC, hq⟩ := fineTunePass_mem _ _ _ _ hdec
      rw [mem_stableSortBy] at htC
      have htC2 := (List.mem_filter.mp htC).1
      have heq : tC = tS := enumIdx_inj i tC tS 0 scaled htC2 hp
      subst heq
      exact ⟨rfl, Or.inr ⟨hq, rfl⟩⟩
  · exact ⟨rfl, Or.inl rfl⟩

/-- Every trade returned by the scaling body comes from an input trade with
the same symbol, either unchanged or with quantity ≥ 1. -/
theorem mem_scalingMain (a f : ℚ) (ts : List Trade) :
    ∀ t2 ∈ scalingMain a f ts,
      ∃ t ∈ ts, t2.symbol = t.symbol ∧ (t2 = t ∨ 1 ≤ t2.quantity) := by
  intro t2 ht2
  simp only [scalingMain] at ht2
  split at ht2
  · -- fine-tuning branch
    obtain ⟨tS, htS, hsym, hcase⟩ := mem_fineTuneTrades _ _ _ t2 ht2
    rcases List.mem_map.mp htS with ⟨t, ht, rfl⟩
    refine ⟨t, ht, by rw [hsym, scaleTrade_symbol], ?_⟩
    rcases hcase with rfl | ⟨hq, hq2⟩
    · rcases scaleTrade_cases _ t with hc | hc
      · exact Or.inl hc
      · exact Or.inr hc
    · have hq3 : 1 < (scaleTrade f t).quantity := hq
      exact Or.inr (by omega)
  · -- no fine-tuning: the scaled list itself
    rcases List.mem_map.mp ht2 with ⟨t, ht, rfl⟩
    refine ⟨t, ht, scaleTrade_symbol _ t, ?_⟩
    rcases scaleTrade_cases _ t with hc | hc
    · exact Or.inl hc
    · exact Or.inr hc

/-- Every trade returned by the cash-constraint scaling pass comes from an
input trade with the same symbol, either unchanged or with quantity ≥ 1. -/
theorem mem_apply_cash_constraint_scaling (cfg : TradingConfig) (ts : List Trade)
    (snap : AccountSnapshot) (allocs : List AllocationItem) :
    ∀ t2 ∈ apply_cash_constraint_scaling cfg ts snap allocs,
      ∃ t ∈ ts, t2.symbol = t.symbol ∧ (t2 = t ∨ 1 ≤ t2.quantity) := by
  intro t2 ht2
  simp only [apply_cash_constraint_scaling] at ht2
  repeat' split at ht2
  all_goals
    first
      | exact ⟨t2, (List.mem_filter.mp ht2).1, rfl, Or.inl rfl⟩
      | exact mem_scalingMain _ _ _ t2 ht2

/-! ## Helper quantities used by the claim theorems -/

/-- Total estimated cost of the buy trades of a list. -/
def buyCostOf (ts : List Trade) : ℚ :=
  ((ts.filter (fun t => 0 < t.quantity)).map tcost).sum

/-- The available-cash formula of the spec and of the code:
`0` when the balance is under the reserve, else
`(cashBalance - minimumCashReserve) / (1 + commissionRate)`. -/
def availableCashFormula (cfg : TradingConfig) (cash_balance : ℚ) : ℚ :=
  if cash_balance < cfg.minimum_cash_reserve_usd then 0
  else (cash_balance - cfg.minimum_cash_reserve_usd) / (1 + cfg.commission_rate)

/-- Shorthand for a both-sides-quoted price. -/
def mkPrice (s : String) (b a : ℚ) : ContractPrice :=
  { symbol := s, bid := some b, ask := some a, last := some 0, close := some 0 }

/-- An account with the default 1% cash reserve. -/
def acctDefault : AccountConfig := { account_id := "U1234567", cash_reserve_percent := 1 }

/-! ## C5 — the phase filter and liquidation trades -/

/-- The property each trade of a phase-filtered result satisfies. -/
theorem calculate_trades_signs (cfg : TradingConfig) (snapshot : AccountSnapshot)
    (allocations : List AllocationItem) (market_prices : List ContractPrice)
    (account_config : AccountConfig) (phase : Phase) (res : TradeCalculationResult)
    (h : calculate_trades cfg snapshot allocations market_prices account_config phase =
      .ok res) :
    ∀ t ∈ res.trades,
      (phase = Phase.sell → t.quantity < 0) ∧
      (phase = Phase.buy →
        0 < t.quantity ∨ (t.quantity < 0 ∧ t.symbol ∉ allocations.map (·.symbol))) := by
  intro t ht
  simp only [calculate_trades] at h
  split at h
  · cases h
  · next liqts lwarns heqliq =>
    split at h
    · cases h
    · next rebts heqreb =>
      cases h
      have heqliq2 : liquidationLoop (allocations.map (·.symbol))
          (dictLookup (·.symbol) market_prices) phase snapshot.positions =
            Except.ok (liqts, lwarns) := heqliq
      have heqreb2 : rebalanceLoop cfg
          (snapshot.total_value * (1 - account_config.cash_reserve_percent / 100))
          snapshot.total_value (dictLookup (·.symbol) snapshot.positions)
          (dictLookup (·.symbol) market_prices) phase allocations = Except.ok rebts := heqreb
      have hliq := liquidationLoop_trades (allocations.map (·.symbol))
        (dictLookup (·.symbol) market_prices) phase snapshot.positions liqts lwarns heqliq2
      have hreb := rebalanceLoop_trades cfg _ _ _ _ phase allocations rebts heqreb2
      have hmem0 : ∀ t0 ∈ sort_trades_by_priority (liqts ++ rebts) allocations,
          (t0.quantity < 0 ∧ t0.symbol ∉ allocations.map (·.symbol)) ∨
          ((phase = Phase.sell → t0.quantity < 0) ∧ (phase = Phase.buy → 0 < t0.quantity)) := by
        intro t0 ht0
        rw [sort_trades_by_priority, mem_stableSortBy] at ht0
        rcases List.mem_append.mp ht0 with ht0 | ht0
        · exact Or.inl (hliq t0 ht0)
        · exact Or.inr (hreb t0 ht0)
      dsimp only at ht
      by_cases hph : phase = Phase.buy ∨ phase = Phase.all
      · rw [if_pos hph] at ht
        obtain ⟨t0, ht0, hsym, hcase⟩ :=
          mem_apply_cash_constraint_scaling cfg _ snapshot allocations t ht
        rcases hcase with rfl | hge
        · rcases hmem0 _ ht0 with hc | hc
          · exact ⟨fun hp => hc.1, fun hp => Or.inr hc⟩
          · exact ⟨hc.1, fun hp => Or.inl (hc.2 hp)⟩
        · exact ⟨fun hp => by cases hph <;> simp_all, fun hp => Or.inl (by omega)⟩
      · rw [if_neg hph] at ht
        rcases hmem0 t ht with hc | hc
        · exact ⟨fun hp => hc.1, fun hp => Or.inr hc⟩
        · exact ⟨hc.1, fun hp => Or.inl (hc.2 hp)⟩

/-- **C5 (amended).**  With phase `sell` every returned trade has quantity
< 0.  With phase `buy` every returned trade whose symbol is in the
allocations has quantity > 0, but liquidation sell trades (quantity < 0,
symbol absent from the allocations) are also part of the result — the phase
filter of the target pass does not apply to the liquidation pass. -/
theorem C5_phase_filter_amended (cfg : TradingConfig) (snapshot : AccountSnapshot)
    (allocations : List AllocationItem) (market_prices : List ContractPrice)
    (account_config : AccountConfig) :
    (∀ res, calculate_trades cfg snapshot allocations market_prices account_config
        Phase.sell = .ok res → ∀ t ∈ res.trades, t.quantity < 0) ∧
    (∀ res, calculate_trades cfg snapshot allocations market_prices account_config
        Phase.buy = .ok res → ∀ t ∈ res.trades,
          0 < t.quantity ∨ (t.quantity < 0 ∧ t.symbol ∉ allocations.map (·.symbol))) := by
  constructor
  · intro res h t ht
    exact (calculate_trades_signs cfg snapshot allocations market_prices account_config
      Phase.sell res h t ht).1 rfl
  · intro res h t ht
    exact (calculate_trades_signs cfg snapshot allocations market_prices account_config
      Phase.buy res h t ht).2 rfl

/-- C5 snapshot: one held position XYZ absent from the allocations. -/
def c5_snapshot : AccountSnapshot :=
  { account_id := "U1234567", total_value := 1000, cash_balance := 1000, settled_cash := 0
    positions := [{ symbol := "XYZ", quantity := 10, market_price := 50, market_value := 500 }] }

/-- C5 allocations: a single target ABC. -/
def c5_allocations : List AllocationItem := [{ symbol := "ABC", allocation := 1/2 }]

/-- C5 prices. -/
def c5_prices : List ContractPrice := [mkPrice "XYZ" 50 51, mkPrice "ABC" 10 10]

/-- The buy-phase output on the C5 input: the liquidation sell of XYZ is in
the result next to the ABC buy. -/
def c5_buy_result : TradeCalculationResult :=
  { trades := [
      { symbol := "XYZ", quantity := -10, current_shares := 10, target_value := 0,
        current_value := 500, price := 50, order_type := OrderType.MARKET },
      { symbol := "ABC", quantity := 87, current_shares := 0, target_value := 495,
        current_value := 0, price := 201/20, order_type := OrderType.LIMIT }],
    warnings := [] }

/-- **C5 (counterexample).**  `calculate_trades` with phase `buy` returns a
trade with quantity −10 (the liquidation sell of XYZ), refuting "the buy
phase contains only trades with quantity > 0 ... including liquidation
trades". -/
theorem C5_buy_phase_contains_a_sell :
    calculate_trades defaultTradingConfig c5_snapshot c5_allocations c5_prices
      acctDefault Phase.buy = Except.ok c5_buy_result ∧
    ¬ ∀ t ∈ c5_buy_result.trades, 0 < t.quantity := by
  with_unfolding_all decide

/-- The sell-phase output on the C5 input. -/
def c5_sell_result : TradeCalculationResult :=
  { trades := [
      { symbol := "XYZ", quantity := -10, current_shares := 10, target_value := 0,
        current_value := 500, price := 50, order_type := OrderType.MARKET }],
    warnings := [] }

/-- Witness for the amended C5 at the concrete input, applying
`C5_phase_filter_amended` to the sell-phase run. -/
theorem C5_phase_filter_amended_witness :
    calculate_trades defaultTradingConfig c5_snapshot c5_allocations c5_prices
      acctDefault Phase.sell = Except.ok c5_sell_result ∧
    (∀ t ∈ c5_sell_result.trades, t.quantity < 0) :=
  ⟨by with_unfolding_all decide,
   (C5_phase_filter_amended defaultTradingConfig c5_snapshot c5_allocations c5_prices
      acctDefault).1 c5_sell_result (by with_unfolding_all decide)⟩

/-! ## C9 — the liquidation pass -/

theorem pyInt_neg_floor {s : ℚ} (h : 0 < s) : pyInt (-s) = -⌊s⌋ := by
  rw [pyInt_eq, if_pos (by linarith), Int.ceil_neg]

/-- Every position with at least one share whose symbol is not targeted
produces a MARKET sell of the floor of its share count at the bid. -/
theorem liquidationLoop_sells (targets : List String) (pm : String → Option ContractPrice)
    (phase : Phase) :
    ∀ (ps : List AccountPosition) (ts : List Trade) (ws : List String),
      liquidationLoop targets pm phase ps = .ok (ts, ws) →
      ∀ p ∈ ps, p.symbol ∉ targets → 1 ≤ p.quantity →
        ∃ t ∈ ts, t.symbol = p.symbol ∧ t.quantity = -⌊p.quantity⌋ ∧
          t.order_type = OrderType.MARKET ∧ t.current_shares = p.quantity ∧
          ∃ pd b, pm p.symbol = some pd ∧ validPx pd.bid = some b ∧ t.price = b
  | [], ts, ws, h => by
    intro p hp
    simp at hp
  | p0 :: rest, ts, ws, h => by
    intro p hp hsym h1
    simp only [liquidationLoop] at h
    by_cases hg : p0.symbol ∈ targets ∨ ¬ 0 < p0.quantity
    · rw [if_pos hg] at h
      rcases List.mem_cons.mp hp with rfl | hp
      · exfalso
        rcases hg with hg | hg
        · exact hsym hg
        · exact hg (by linarith)
      · exact liquidationLoop_sells targets pm phase rest ts ws h p hp hsym h1
    · rw [if_neg hg] at h
      cases hpm : pm p0.symbol with
      | none => simp only [hpm] at h; cases h
      | some pd =>
        simp only [hpm] at h
        cases hbid : validPx pd.bid with
        | none => simp only [hbid] at h; cases h
        | some bid =>
          simp only [hbid] at h
          cases hrec : liquidationLoop targets pm phase rest with
          | error e =>
            simp only [hrec] at h
            by_cases hfrac : 0 < p0.quantity ∧ p0.quantity < 1
            · rw [if_pos hfrac] at h; cases h
            · rw [if_neg hfrac] at h; cases h
          | ok pr =>
            obtain ⟨trades, warnings⟩ := pr
            simp only [hrec] at h
            by_cases hfrac : 0 < p0.quantity ∧ p0.quantity < 1
            · rw [if_pos hfrac] at h
              have hrest : ∀ q ∈ rest, q.symbol ∉ targets → 1 ≤ q.quantity → _ :=
                fun q hq => liquidationLoop_sells targets pm phase rest trades warnings hrec q hq
              rcases List.mem_cons.mp hp with rfl | hp
              · exact absurd hfrac.2 (by linarith)
              · by_cases hph : phase ≠ Phase.buy
                · rw [if_pos hph] at h
                  cases h
                  exact hrest p hp hsym h1
                · rw [if_neg hph] at h
                  cases h
                  exact hrest p hp hsym h1
            · rw [if_neg hfrac] at h
              cases h
              rcases List.mem_cons.mp hp with rfl | hp
              · refine ⟨_, List.mem_cons_self _ _, rfl, ?_, rfl, rfl, pd, bid, hpm, hbid, rfl⟩
                exact pyInt_neg_floor (by linarith)
              · obtain ⟨t, ht, hrest⟩ :=
                  liquidationLoop_sells targets pm phase rest _ _ hrec p hp hsym h1
                exact ⟨t, List.mem_cons_of_mem _ ht, hrest⟩

/-- A fractional (0 < quantity < 1) untargeted position yields its warning in
every phase other than the buy phase. -/
theorem liquidationLoop_fractional_warning (targets : List String)
    (pm : String → Option ContractPrice) (phase : Phase) :
    ∀ (ps : List AccountPosition) (ts : List Trade) (ws : List String),
      liquidationLoop targets pm phase ps = .ok (ts, ws) →
      ∀ p ∈ ps, p.symbol ∉ targets → 0 < p.quantity → p.quantity < 1 →
        phase ≠ Phase.buy → fractionalWarning p.symbol ∈ ws
  | [], ts, ws, h => by
    intro p hp
    simp at hp
  | p0 :: rest, ts, ws, h => by
    intro p hp hsym h0 h1 hph
    simp only [liquidationLoop] at h
    by_cases hg : p0.symbol ∈ targets ∨ ¬ 0 < p0.quantity
    · rw [if_pos hg] at h
      rcases List.mem_cons.mp hp with rfl | hp
      · exfalso
        rcases hg with hg | hg
        · exact hsym hg
        · exact hg h0
      · exact liquidationLoop_fractional_warning targets pm phase rest ts ws h p hp hsym h0 h1 hph
    · rw [if_neg hg] at h
      cases hpm : pm p0.symbol with
      | none => simp only [hpm] at h; cases h
      | some pd =>
        simp only [hpm] at h
        cases hbid : validPx pd.bid with
        | none => simp only [hbid] at h; cases h
        | some bid =>
          simp only [hbid] at h
          cases hrec : liquidationLoop targets pm phase rest with
          | error e =>
            simp only [hrec] at h
            by_cases hfrac : 0 < p0.quantity ∧ p0.quantity < 1
            · rw [if_pos hfrac] at h; cases h
            · rw [if_neg hfrac] at h; cases h
          | ok pr =>
            obtain ⟨trades, warnings⟩ := pr
            simp only [hrec] at h
            have ih := fun hq => liquidationLoop_fractional_warning targets pm phase rest
              trades warnings hrec p hq hsym h0 h1 hph
            by_cases hfrac : 0 < p0.quantity ∧ p0.quantity < 1
            · rw [if_pos hfrac, if_pos hph] at h
              cases h
              rcases List.mem_cons.mp hp with rfl | hp
              · exact List.mem_cons_self _ _
              · exact List.mem_cons_of_mem _ (ih hp)
            · rw [if_neg hfrac] at h
              cases h
              rcases List.mem_cons.mp hp with rfl | hp
              · exact absurd ⟨h0, h1⟩ hfrac
              · exact ih hp

/-- In the buy phase the liquidation pass emits no warnings at all. -/
theorem liquidationLoop_buy_no_warnings (targets : List String)
    (pm : String → Option ContractPrice) :
    ∀ (ps : List AccountPosition) (ts : List Trade) (ws : List String),
      liquidationLoop targets pm Phase.buy ps = .ok (ts, ws) → ws = []
  | [], ts, ws, h => by
    simp only [liquidationLoop] at h
    cases h
    rfl
  | p0 :: rest, ts, ws, h => by
    simp only [liquidationLoop] at h
    by_cases hg : p0.symbol ∈ targets ∨ ¬ 0 < p0.quantity
    · rw [if_pos hg] at h
      exact liquidationLoop_buy_no_warnings targets pm rest ts ws h
    · rw [if_neg hg] at h
      cases hpm : pm p0.symbol with
      | none => simp only [hpm] at h; cases h
      | some pd =>
        simp only [hpm] at h
        cases hbid : validPx pd.bid with
        | none => simp only [hbid] at h; cases h
        | some bid =>
          simp only [hbid] at h
          cases hrec : liquidationLoop targets pm Phase.buy rest with
          | error e =>
            simp only [hrec] at h
            by_cases hfrac : 0 < p0.quantity ∧ p0.quantity < 1
            · rw [if_pos hfrac] at h; cases h
            · rw [if_neg hfrac] at h; cases h
          | ok pr =>
            obtain ⟨trades, warnings⟩ := pr
            simp only [hrec] at h
            have ih := liquidationLoop_buy_no_warnings targets pm rest trades warnings hrec
            by_cases hfrac : 0 < p0.quantity ∧ p0.quantity < 1
            · rw [if_pos hfrac, if_neg (by simp)] at h
              cases h
              exact ih
            · rw [if_neg hfrac] at h
              cases h
              exact ih

/-- **C9 (amended).**  In the liquidation pass, every held position (with at
least one full share) whose symbol is absent from the allocations yields a
MARKET sell at the bid for the *floor* of its share count (the fractional
remainder is not sold); positions with 0 < quantity < 1 produce the warning
instead of a trade, in every phase except the buy phase; and in the buy
phase the pass emits no warnings at all. -/
theorem C9_liquidation_pass_amended (snapshot : AccountSnapshot)
    (allocations : List AllocationItem) (pm : String → Option ContractPrice)
    (phase : Phase) (ts : List Trade) (ws : List String)
    (h : calculate_liquidation_trades snapshot allocations pm phase = .ok (ts, ws)) :
    (∀ p ∈ snapshot.positions, p.symbol ∉ allocations.map (·.symbol) → 1 ≤ p.quantity →
      ∃ t ∈ ts, t.symbol = p.symbol ∧ t.quantity = -⌊p.quantity⌋ ∧
        t.order_type = OrderType.MARKET ∧ t.current_shares = p.quantity ∧
        ∃ pd b, pm p.symbol = some pd ∧ validPx pd.bid = some b ∧ t.price = b) ∧
    (∀ p ∈ snapshot.positions, p.symbol ∉ allocations.map (·.symbol) →
      0 < p.quantity → p.quantity < 1 → phase ≠ Phase.buy →
        fractionalWarning p.symbol ∈ ws) ∧
    (phase = Phase.buy → ws = []) := by
  refine ⟨?_, ?_, ?_⟩
  · exact liquidationLoop_sells _ pm phase snapshot.positions ts ws h
  · exact liquidationLoop_fractional_warning _ pm phase snapshot.positions ts ws h
  · intro hph
    subst hph
    exact liquidationLoop_buy_no_warnings _ pm snapshot.positions ts ws h

/-- C9 snapshot with a fractional position of 2.5 shares. -/
def c9_snapshot : AccountSnapshot :=
  { account_id := "U1234567", total_value := 100, cash_balance := 100, settled_cash := 0
    positions := [{ symbol := "XYZ", quantity := 5/2, market_price := 10, market_value := 25 }] }

/-- C9 allocations (XYZ absent). -/
def c9_allocations : List AllocationItem := [{ symbol := "ABC", allocation := 1/2 }]

/-- The trade the liquidation pass produces for the 2.5-share position. -/
def c9_trade : Trade :=
  { symbol := "XYZ", quantity := -2, current_shares := 5/2, target_value := 0,
    current_value := 25, price := 10, order_type := OrderType.MARKET }

/-- **C9 (counterexample).**  For a position of 2.5 shares of XYZ (absent
from the allocations), the liquidation pass sells 2 shares, not the
position's entire share count: no trade in the result sells 2.5 shares. -/
theorem C9_fractional_position_truncated :
    calculate_liquidation_trades c9_snapshot c9_allocations
      (dictLookup (·.symbol) [mkPrice "XYZ" 10 10]) Phase.all = .ok ([c9_trade], []) ∧
    (∀ p ∈ c9_snapshot.positions, p.quantity = 5/2) ∧
    ¬ ∃ t ∈ [c9_trade], (t.quantity : ℚ) = -(5/2) := by
  with_unfolding_all decide

/-- C9 witness snapshot with a whole-share position. -/
def c9w_snapshot : AccountSnapshot :=
  { account_id := "U1234567", total_value := 100, cash_balance := 100, settled_cash := 0
    positions := [{ symbol := "XYZ", quantity := 2, market_price := 10, market_value := 20 }] }

/-- The liquidation output on the C9 witness input. -/
def c9w_trades : List Trade :=
  [{ symbol := "XYZ", quantity := -2, current_shares := 2, target_value := 0,
     current_value := 20, price := 10, order_type := OrderType.MARKET }]

/-- Witness for the amended C9, applying `C9_liquidation_pass_amended` to a
2-share position of XYZ. -/
theorem C9_liquidation_pass_amended_witness :
    calculate_liquidation_trades c9w_snapshot c9_allocations
      (dictLookup (·.symbol) [mkPrice "XYZ" 10 10]) Phase.all = .ok (c9w_trades, []) ∧
    ∃ t ∈ c9w_trades, t.symbol = "XYZ" ∧ t.quantity = -⌊(2 : ℚ)⌋ ∧
      t.order_type = OrderType.MARKET ∧ t.current_shares = (2 : ℚ) ∧
      ∃ pd b, dictLookup (·.symbol) [mkPrice "XYZ" 10 10] "XYZ" = some pd ∧
        validPx pd.bid = some b ∧ t.price = b := by
  refine ⟨by with_unfolding_all decide, ?_⟩
  have hmain := (C9_liquidation_pass_amended c9w_snapshot c9_allocations
    (dictLookup (·.symbol) [mkPrice "XYZ" 10 10]) Phase.all c9w_trades []
    (by with_unfolding_all decide)).1
    { symbol := "XYZ", quantity := 2, market_price := 10, market_value := 20 }
    (by with_unfolding_all decide) (by with_unfolding_all decide) (by with_unfolding_all decide)
  simpa using hmain

/-! ## C7 — PDT gate -/

/-- C7 input: `total_value` etc. of the PDT store are irrelevant; this store
has one record with `next_execution = 5` for every account. -/
def c7_store : String → PDTFile := fun _ => PDTFile.record (some (TsField.valid 5))

/-- **C7.** The PDT gate check returns not-allowed, carrying the record's
next-allowed time, if and only if a well-formed PDT record exists for the
account and `now < nextAllowedAt`; in every other case (no record file, a
record missing its next-execution field, a corrupt or unreadable record) it
returns allowed (fail-open); and the check never writes the store. -/
theorem C7_pdt_gate_characterization (store : String → PDTFile) (account_id : String) (now : ℤ) :
    (is_execution_allowed_store store account_id now).1 = store ∧
    ((is_execution_allowed_store store account_id now).2.allowed = false ↔
      ∃ t, store account_id = PDTFile.record (some (TsField.valid t)) ∧ now < t) ∧
    (∀ t, store account_id = PDTFile.record (some (TsField.valid t)) → now < t →
      (is_execution_allowed_store store account_id now).2 =
        { allowed := false, next_allowed_time := some t }) := by
  refine ⟨rfl, ?_, ?_⟩
  · unfold is_execution_allowed_store is_execution_allowed
    cases h : store account_id with
    | absent => simp
    | corrupt => simp
    | record nxt =>
      cases nxt with
      | none => simp
      | some ts =>
        cases ts with
        | malformed => simp
        | valid t =>
          by_cases hle : t ≤ now
          · simp only [hle, if_true]
            constructor
            · intro hfalse; exact absurd hfalse (by simp)
            · rintro ⟨t2, ht2, hnow⟩
              cases ht2
              omega
          · simp only [hle, if_false]
            exact ⟨fun _ => ⟨t, rfl, by omega⟩, fun _ => trivial⟩
  · intro t ht hnow
    unfold is_execution_allowed_store is_execution_allowed
    rw [ht]
    simp only
    rw [if_neg (by omega)]

/-- Witness for C7 at a concrete store, applying
`C7_pdt_gate_characterization` at `now = 3` against a record with
`next_execution = 5`. -/
theorem C7_pdt_gate_characterization_witness :
    ((is_execution_allowed_store c7_store "U1" 3).2.allowed = false ↔
      ∃ t, c7_store "U1" = PDTFile.record (some (TsField.valid t)) ∧ (3 : ℤ) < t) ∧
    (is_execution_allowed_store c7_store "U1" 3).2 =
      { allowed := false, next_allowed_time := some 5 } :=
  ⟨(C7_pdt_gate_characterization c7_store "U1" 3).2.1,
   (C7_pdt_gate_characterization c7_store "U1" 3).2.2 5 rfl (by decide)⟩

/-! ## C3 — replacement scaling does not renormalize -/

/-- C3 replacement sets: one set with the single rule A → B at scale 0.5. -/
def c3_sets : List (String × List ReplacementRule) :=
  [("ira", [{ source := "A", target := "B", scale := 1/2 }])]

/-- C3 allocations: {A: 0.5, C: 0.5}, summing to exactly 1. -/
def c3_allocations : List TargetAllocation :=
  [{ symbol := "A", allocation_percent := 1/2 },
   { symbol := "C", allocation_percent := 1/2 }]

/-- **C3 (failing input).**  On allocations summing to 1.0 with the matching
rule A → B at scale 0.5, `apply_replacements_with_scaling` of the
event-processor returns {B: 0.25, C: 0.5}: the total 0.75 misses 1.0 by 25%,
far outside the claimed 1% bound, because the function only warns after
consolidation and never rescales the set (its own docstring promises a
result "normalized to 100%"). -/
theorem C3_replacement_sum_not_renormalized :
    (c3_allocations.map (·.allocation_percent)).sum = 1 ∧
    apply_replacements_with_scaling c3_sets c3_allocations (some "ira") =
      [{ symbol := "B", allocation_percent := 1/4 },
       { symbol := "C", allocation_percent := 1/2 }] ∧
    ((apply_replacements_with_scaling c3_sets c3_allocations (some "ira")).map
      (·.allocation_percent)).sum = 3/4 ∧
    ¬ |(3/4 : ℚ) - 1| ≤ 1/100 := by
  with_unfolding_all decide

/-! ## C8 — dispatcher deduplication across the delayed path -/

/-- First event for key `(A1, rebalance)`. -/
def c8_e1 : EventM := { event_id := "ev1", account_id := "A1", exec_command := "rebalance" }

/-- Second event for the same key. -/
def c8_e2 : EventM := { event_id := "ev2", account_id := "A1", exec_command := "rebalance" }

/-- The first event is submitted, starts, and completes with
`CommandStatus.DELAYED` (a trading-hours gate delay until t = 100). -/
def c8_start : List DispatcherAction :=
  [DispatcherAction.submit c8_e1, DispatcherAction.start c8_e1,
   DispatcherAction.complete c8_e1 (CommandOutcome.delayedUntil 100)]

/-- ... then a second event for the same key is submitted and starts, and the
delayed sweep requeues and starts the first event again. -/
def c8_trace : List DispatcherAction :=
  c8_start ++
  [DispatcherAction.submit c8_e2, DispatcherAction.start c8_e2,
   DispatcherAction.sweep 100, DispatcherAction.start c8_e1]

/-- **C8 (failing input).**  After a gate delay, `process_event` treats the
`DELAYED` command status in its failure branch and removes the key from the
active set even though the event now sits in the delayed set; a second
submission for the same key is then accepted, and once the sweep requeues the
delayed event, two executions of the key `(A1, rebalance)` are in flight at
once — the claimed at-most-one-execution invariant fails. -/
theorem C8_delayed_event_loses_dedup_key :
    (runDispatcher emptyDispatcherState c8_start).delayed = [(c8_e1, 100)] ∧
    (runDispatcher emptyDispatcherState c8_start).active = [] ∧
    (runDispatcher emptyDispatcherState c8_trace).in_flight = [c8_e2, c8_e1] ∧
    c8_e1 ≠ c8_e2 ∧ eventKey c8_e1 = eventKey c8_e2 := by
  with_unfolding_all decide

/-! ## Lemmas about the orchestrator embedding -/

/-- The buy orders placed in a broker-call trace. -/
def buyPlacedTrades (trace : List BrokerCall) : List Trade :=
  trace.filterMap (fun c =>
    match c with
    | .placeBuyOrder t => some t
    | _ => none)

theorem buyPlacedTrades_append (a b : List BrokerCall) :
    buyPlacedTrades (a ++ b) = buyPlacedTrades a ++ buyPlacedTrades b :=
  List.filterMap_append a b _

theorem buyPlacedTrades_cancels (oo : List OpenOrderM) :
    buyPlacedTrades (oo.map (fun o => BrokerCall.cancelOrder o.order_id)) = [] := by
  induction oo with
  | nil => rfl
  | cons o rest ih => simp only [List.map_cons, buyPlacedTrades, List.filterMap_cons]; exact ih

theorem buyPlacedTrades_sells (l : List Trade) :
    buyPlacedTrades (l.map BrokerCall.placeSellOrder) = [] := by
  induction l with
  | nil => rfl
  | cons t rest ih => simp only [List.map_cons, buyPlacedTrades, List.filterMap_cons]; exact ih

theorem buyPlacedTrades_buys (l : List Trade) :
    buyPlacedTrades (l.map BrokerCall.placeBuyOrder) = l := by
  induction l with
  | nil => rfl
  | cons t rest ih => simpa [buyPlacedTrades] using ih

theorem map_tcost_assignIds : ∀ (s : ℕ) (l : List Trade),
    (assignIds s l).map tcost = l.map tcost
  | _, [] => rfl
  | s, t :: rest => by
    simp only [assignIds, List.map_cons, map_tcost_assignIds (s + 1) rest]
    rfl

/-- The accepted buys of the affordability loop cost at most the cash the
loop started with. -/
theorem selectAffordableBuys_sum (pm : String → Option AccountPosition)
    (am : String → ℚ) :
    ∀ (avail : ℚ) (l : List Trade), 0 ≤ avail →
      (((selectAffordableBuys pm am avail l).1.map tcost)).sum ≤ avail
  | avail, [], h => by
    simp only [selectAffordableBuys, List.map_nil, List.sum_nil]
    exact h
  | avail, t :: rest, h => by
    simp only [selectAffordableBuys]
    by_cases hc : avail < tcost t
    · rw [if_pos hc]
      exact selectAffordableBuys_sum pm am avail rest h
    · rw [if_neg hc]
      have h2 : (0 : ℚ) ≤ avail - tcost t := by
        have := not_lt.mp hc
        linarith
      have hrec := selectAffordableBuys_sum pm am (avail - tcost t) rest h2
      simp only [List.map_cons, List.sum_cons]
      linarith

theorem availableCashFormula_nonneg (cfg : TradingConfig) (cash : ℚ)
    (h : 0 ≤ cfg.commission_rate) : 0 ≤ availableCashFormula cfg cash := by
  unfold availableCashFormula
  split
  · exact le_refl 0
  · next h2 =>
    apply div_nonneg
    · have := not_lt.mp h2
      linarith
    · linarith

theorem isFailedStatus_terminal {st : OrdStatus} (h : isFailedStatus st = true) :
    isTerminalStatus st = true := by
  cases st <;> simp_all [isFailedStatus, isTerminalStatus]

/-- If terminal statuses are absorbing, statuses are never falsy, and some
polled order is observed in a failed state at any round, the wait loop raises
(either when all orders are terminal, or at the timeout). -/
theorem waitLoop_fails (status : ℕ → ℕ → Option OrdStatus) (ids : List ℕ)
    (Habs : ∀ oid r1 r2 st, r1 ≤ r2 → status oid r1 = some st →
      isTerminalStatus st = true → status oid r2 = some st)
    (Hsome : ∀ oid r, status oid r ≠ none)
    (oid : ℕ) (hid : oid ∈ ids) (r0 : ℕ) (st0 : OrdStatus)
    (hst : status oid r0 = some st0) (hfail : isFailedStatus st0 = true) :
    ∀ (fuel r : ℕ), ∃ e, waitLoop status ids fuel r = .error e
  | 0, r => ⟨"Order execution timeout", rfl⟩
  | fuel + 1, r => by
    simp only [waitLoop]
    by_cases hac : (ids.all (fun oid2 =>
        match status oid2 r with
        | some st => isTerminalStatus st
        | none => true)) = true
    · rw [if_pos hac]
      cases hstc : status oid r with
      | none => exact absurd hstc (Hsome oid r)
      | some stc =>
        have hterm : isTerminalStatus stc = true := by
          have hall := List.all_eq_true.mp hac oid hid
          rw [hstc] at hall
          exact hall
        have hstceq : stc = st0 := by
          rcases le_total r r0 with hle | hle
          · have habs := Habs oid r r0 stc hle hstc hterm
            rw [hst] at habs
            exact (Option.some.inj habs).symm
          · have habs := Habs oid r0 r st0 hle hst (isFailedStatus_terminal hfail)
            rw [hstc] at habs
            exact Option.some.inj habs
        have hmem : oid ∈ ids.filter (fun oid2 =>
            match status oid2 r with
            | some st => isFailedStatus st
            | none => false) := by
          refine List.mem_filter.mpr ⟨hid, ?_⟩
          rw [hstc, hstceq]
          exact hfail
        have hne : ¬ (ids.filter (fun oid2 =>
            match status oid2 r with
            | some st => isFailedStatus st
            | none => false)).isEmpty = true := by
          rw [List.isEmpty_iff]
          exact List.ne_nil_of_mem hmem
        rw [if_neg hne]
        exact ⟨"Orders failed", rfl⟩
    · rw [if_neg hac]
      exact waitLoop_fails status ids Habs Hsome oid hid r0 st0 hst hfail fuel (r + 1)

/-! ## C2 — failed orders fail the whole rebalance -/

/-- A sell placement in the cancel-then-sell trace segment comes from the
sell order list. -/
theorem placeSell_mem_t1 (oo : List OpenOrderM) (sells : List Trade) (t : Trade)
    (h : BrokerCall.placeSellOrder t ∈
      oo.map (fun o => BrokerCall.cancelOrder o.order_id) ++
        sells.map BrokerCall.placeSellOrder) : t ∈ sells := by
  rcases List.mem_append.mp h with h | h
  · exact absurd h (by simp)
  · rcases List.mem_map.mp h with ⟨t2, ht2, heq⟩
    cases heq
    exact ht2

/-- A sell placement in the full trace comes from the sell order list. -/
theorem placeSell_mem_t2 (oo : List OpenOrderM) (sells buys : List Trade) (t : Trade)
    (h : BrokerCall.placeSellOrder t ∈
      (oo.map (fun o => BrokerCall.cancelOrder o.order_id) ++
        sells.map BrokerCall.placeSellOrder) ++ buys.map BrokerCall.placeBuyOrder) :
    t ∈ sells := by
  rcases List.mem_append.mp h with h | h
  · exact placeSell_mem_t1 oo sells t h
  · rcases List.mem_map.mp h with ⟨t2, ht2, heq⟩
    cases heq

/-- There is no buy placement in the cancel-then-sell trace segment. -/
theorem placeBuy_not_mem_t1 (oo : List OpenOrderM) (sells : List Trade) (t : Trade)
    (h : BrokerCall.placeBuyOrder t ∈
      oo.map (fun o => BrokerCall.cancelOrder o.order_id) ++
        sells.map BrokerCall.placeSellOrder) : False := by
  rcases List.mem_append.mp h with h | h
  · rcases List.mem_map.mp h with ⟨o, _, heq⟩
    cases heq
  · rcases List.mem_map.mp h with ⟨t2, _, heq⟩
    cases heq

/-- A buy placement in the full trace comes from the executed-buy list. -/
theorem placeBuy_mem_t2 (oo : List OpenOrderM) (sells buys : List Trade) (t : Trade)
    (h : BrokerCall.placeBuyOrder t ∈
      (oo.map (fun o => BrokerCall.cancelOrder o.order_id) ++
        sells.map BrokerCall.placeSellOrder) ++ buys.map BrokerCall.placeBuyOrder) :
    t ∈ buys := by
  rcases List.mem_append.mp h with h | h
  · exact absurd h (placeBuy_not_mem_t1 oo sells t)
  · rcases List.mem_map.mp h with ⟨t2, ht2, heq⟩
    cases heq
    exact ht2

/-- Under the C2 status assumptions, the wait over a list of orders that
contains a failed order cannot return `ok`. -/
theorem wait_not_ok (env : RebEnv) (orders : List Trade) (t : Trade) (oid : ℕ)
    (Habs : ∀ oid2 r1 r2 st, r1 ≤ r2 → env.order_status oid2 r1 = some st →
      isTerminalStatus st = true → env.order_status oid2 r2 = some st)
    (Hsome : ∀ oid2 r, env.order_status oid2 r ≠ none)
    (ht : t ∈ orders) (hoid : t.order_id = some oid)
    (hfound : ∃ r st, env.order_status oid r = some st ∧ isFailedStatus st = true) :
    ∀ x, wait_for_orders_complete env (orders.map (fun t2 => t2.order_id.getD 0)) =
      Except.ok x → False := by
  intro x hok
  obtain ⟨r0, st0, hst, hfail⟩ := hfound
  have hidmem : oid ∈ orders.map (fun t2 => t2.order_id.getD 0) := by
    simpa [hoid] using List.mem_map_of_mem (fun t2 => t2.order_id.getD 0) ht
  unfold wait_for_orders_complete at hok
  rw [if_neg (by
    rw [List.isEmpty_iff]
    exact List.ne_nil_of_mem hidmem)] at hok
  obtain ⟨e, herr⟩ := waitLoop_fails env.order_status _ Habs Hsome oid hidmem r0 st0 hst hfail
    env.max_polls 0
  rw [herr] at hok
  cases hok

/-- **C2.**  Assuming the broker's order statuses are never falsy and
terminal statuses are absorbing: if any sell order placed by
`rebalance_account` is ever observed in a non-fill terminal (failed) state,
the run returns `success = false` and no buy order is ever placed; if any
placed buy order is ever observed in a failed state, the run returns
`success = false`.  In both cases the order is never re-placed — the trace
holds exactly the original placements, so the failure is not a partial
retry. -/
theorem C2_failed_order_aborts (cfg : TradingConfig) (account : AccountConfig) (env : RebEnv)
    (Habs : ∀ oid r1 r2 st, r1 ≤ r2 → env.order_status oid r1 = some st →
      isTerminalStatus st = true → env.order_status oid r2 = some st)
    (Hsome : ∀ oid r, env.order_status oid r ≠ none) :
    (∀ t oid, BrokerCall.placeSellOrder t ∈ (rebalance_account cfg account env).2 →
      t.order_id = some oid →
      (∃ r st, env.order_status oid r = some st ∧ isFailedStatus st = true) →
      (rebalance_account cfg account env).1.success = false ∧
        buyPlacedTrades (rebalance_account cfg account env).2 = []) ∧
    (∀ t oid, BrokerCall.placeBuyOrder t ∈ (rebalance_account cfg account env).2 →
      t.order_id = some oid →
      (∃ r st, env.order_status oid r = some st ∧ isFailedStatus st = true) →
      (rebalance_account cfg account env).1.success = false) := by
  constructor
  · intro t oid hmem hoid hfound
    simp only [rebalance_account] at hmem ⊢
    split at hmem
    · exact absurd hmem (by simp)
    · next result heqcalc =>
      try simp only [heqcalc]
      split at hmem
      · -- sell wait failed: the rebalance fails before any buy
        next e heqwait =>
          try simp only [heqwait]
          exact ⟨rfl, by
            rw [buyPlacedTrades_append, buyPlacedTrades_cancels, buyPlacedTrades_sells]
            rfl⟩
      · -- sell wait succeeded: in every later branch the sell placement
        -- contradicts the observed failed sell order
        next x heqwait =>
          exfalso
          have hcontr : t ∈ assignIds 0 (result.trades.filter (fun t2 => t2.quantity < 0)) := by
            split at hmem
            · exact placeSell_mem_t1 env.open_orders _ t hmem
            · split at hmem
              · exact placeSell_mem_t1 env.open_orders _ t hmem
              · split at hmem
                · exact placeSell_mem_t2 env.open_orders _ _ t hmem
                · exact placeSell_mem_t2 env.open_orders _ _ t hmem
          exact wait_not_ok env _ t oid Habs Hsome hcontr hoid hfound x heqwait
  · intro t oid hmem hoid hfound
    simp only [rebalance_account] at hmem ⊢
    split at hmem
    · exact absurd hmem (by simp)
    · next result heqcalc =>
      try simp only [heqcalc]
      split at hmem
      · -- sell wait failed: the trace has no buy placement
        exact absurd hmem (by
          intro hq
          exact placeBuy_not_mem_t1 env.open_orders _ t hq)
      · next x heqwait =>
        try simp only [heqwait]
        split at hmem
        · -- buy-phase calculation failed
          exact absurd hmem (by
            intro hq
            exact placeBuy_not_mem_t1 env.open_orders _ t hq)
        · next buy_result heqbuy =>
          try simp only [heqbuy]
          split at hmem
          · -- no buy orders computed
            next hempty =>
              try rw [if_pos hempty]
              exact absurd hmem (by
                intro hq
                exact placeBuy_not_mem_t1 env.open_orders _ t hq)
          · next hempty =>
            try rw [if_neg hempty]
            split at hmem
            · -- buy wait failed
              next e heqbw =>
                try simp only [heqbw]
                rfl
            · -- buy wait succeeded: contradiction
              next x2 heqbw =>
                exact absurd heqbw (by
                  intro hq
                  exact wait_not_ok env _ t oid Habs Hsome
                    (placeBuy_mem_t2 env.open_orders _ _ t hmem) hoid hfound x2 hq)

/-- C2 witness environment: one held position XYZ to liquidate, and a broker
that reports every order CANCELLED at every poll. -/
def c2w_env : RebEnv :=
  { allocations := c5_allocations
    snapshots := fun _ => c5_snapshot
    market_prices := c5_prices
    open_orders := []
    cancel_kills := fun _ => true
    order_status := fun _ _ => some OrdStatus.cancelled
    max_polls := 5 }

/-- The sell order placed on the C2 witness environment. -/
def c2w_sell : Trade :=
  { symbol := "XYZ", quantity := -10, current_shares := 10, target_value := 0,
    current_value := 500, price := 50, order_type := OrderType.MARKET, order_id := some 0 }

/-- Witness for C2: on an environment whose only sell order gets cancelled,
`rebalance_account` fails and places no buy order (by
`C2_failed_order_aborts`). -/
theorem C2_failed_order_aborts_witness :
    BrokerCall.placeSellOrder c2w_sell ∈
      (rebalance_account defaultTradingConfig acctDefault c2w_env).2 ∧
    (rebalance_account defaultTradingConfig acctDefault c2w_env).1.success = false ∧
    buyPlacedTrades (rebalance_account defaultTradingConfig acctDefault c2w_env).2 = [] := by
  refine ⟨by with_unfolding_all decide, ?_, ?_⟩ <;>
  · have h := (C2_failed_order_aborts defaultTradingConfig acctDefault c2w_env
      (fun oid r1 r2 st _ h2 _ => h2) (fun oid r h2 => Option.noConfusion h2)).1 c2w_sell 0
      (by with_unfolding_all decide) rfl ⟨0, OrdStatus.cancelled, rfl, rfl⟩
    first
      | exact h.1
      | exact h.2

/-! ## C6 — cancellation of pending orders -/

theorem isCancellation_sells (sells : List Trade) :
    ∀ c ∈ sells.map BrokerCall.placeSellOrder, isCancellation c = false := by
  intro c hc
  rcases List.mem_map.mp hc with ⟨t, _, rfl⟩
  rfl

theorem isCancellation_sells_buys (sells buys : List Trade) :
    ∀ c ∈ sells.map BrokerCall.placeSellOrder ++ buys.map BrokerCall.placeBuyOrder,
      isCancellation c = false := by
  intro c hc
  rcases List.mem_append.mp hc with hc | hc
  · exact isCancellation_sells sells c hc
  · rcases List.mem_map.mp hc with ⟨t, _, rfl⟩
    rfl

/-- **C6 (amended).**  If the run places any order, then the broker-call
trace begins with a cancellation request for every open order, followed only
by non-cancellation calls: cancellations are requested before any placement.
The code does not, however, wait for the gateway to confirm the
cancellations (see `C6_no_blocking_on_cancellation`). -/
theorem C6_cancellations_precede_placements (cfg : TradingConfig) (account : AccountConfig)
    (env : RebEnv)
    (hex : ∃ c ∈ (rebalance_account cfg account env).2, isPlacement c = true) :
    ∃ post, (rebalance_account cfg account env).2 =
      env.open_orders.map (fun o => BrokerCall.cancelOrder o.order_id) ++ post ∧
      ∀ c ∈ post, isCancellation c = false := by
  simp only [rebalance_account] at hex ⊢
  split at hex
  · obtain ⟨c, hc, _⟩ := hex
    exact absurd hc (by simp)
  · split at hex
    · exact ⟨_, rfl, isCancellation_sells _⟩
    · split at hex
      · exact ⟨_, rfl, isCancellation_sells _⟩
      · split at hex
        next hcond =>
          rw [if_pos hcond]
          exact ⟨_, rfl, isCancellation_sells _⟩
        next hcond =>
          rw [if_neg hcond]
          split at hex
          · exact ⟨_, List.append_assoc _ _ _, isCancellation_sells_buys _ _⟩
          · exact ⟨_, List.append_assoc _ _ _, isCancellation_sells_buys _ _⟩

/-- Snapshot for the happy-path environment: no positions, $1000 cash. -/
def happySnap : AccountSnapshot :=
  { account_id := "U1234567", total_value := 1000, cash_balance := 1000, settled_cash := 0
    positions := [] }

/-- Happy-path environment: one open order (id 99) that the gateway never
actually cancels (`cancel_kills 99 = false`, i.e. it stays live), every
placed order fills immediately. -/
def happyEnv : RebEnv :=
  { allocations := [{ symbol := "ABC", allocation := 1/2 }]
    snapshots := fun _ => happySnap
    market_prices := [mkPrice "ABC" 10 10]
    open_orders := [{ order_id := 99 }]
    cancel_kills := fun _ => false
    order_status := fun _ _ => some OrdStatus.filled
    max_polls := 5 }

/-- The buy order placed on the happy-path environment. -/
def c6_buy : Trade :=
  { symbol := "ABC", quantity := 87, current_shares := 0, target_value := 495,
    current_value := 0, price := 201/20, order_type := OrderType.LIMIT, order_id := some 0 }

/-- **C6 (counterexample).**  The open order 99 is never confirmed dead (the
gateway ignores the cancel request: `cancel_kills 99 = false`, so the order
stays live), yet `rebalance_account` goes on to place a new buy order and
returns `success = true`: there is no block-until-zero-pending step, no
timeout, and no `Failed` abort — `_cancel_pending_orders` fires the cancel
requests and returns immediately, swallowing any error. -/
theorem C6_no_blocking_on_cancellation :
    happyEnv.open_orders = [{ order_id := 99 }] ∧
    happyEnv.cancel_kills 99 = false ∧
    (rebalance_account defaultTradingConfig acctDefault happyEnv).2 =
      [BrokerCall.cancelOrder 99, BrokerCall.placeBuyOrder c6_buy] ∧
    (rebalance_account defaultTradingConfig acctDefault happyEnv).1.success = true := by
  with_unfolding_all decide

/-- Witness for the amended C6 on the happy-path environment, applying
`C6_cancellations_precede_placements`. -/
theorem C6_cancellations_precede_placements_witness :
    (∃ c ∈ (rebalance_account defaultTradingConfig acctDefault happyEnv).2,
      isPlacement c = true) ∧
    ∃ post, (rebalance_account defaultTradingConfig acctDefault happyEnv).2 =
      happyEnv.open_orders.map (fun o => BrokerCall.cancelOrder o.order_id) ++ post ∧
      ∀ c ∈ post, isCancellation c = false :=
  ⟨by with_unfolding_all decide,
   C6_cancellations_precede_placements defaultTradingConfig acctDefault happyEnv
     (by with_unfolding_all decide)⟩

/-! ## C10 — the running-cash affordability loop -/

/-- **C10.**  The estimated costs (quantity × price) of all buy orders
actually placed by `rebalance_account` sum to at most the available cash
computed from the post-sell snapshot: 0 if the balance is under the minimum
reserve, else `(cashBalance − minimumCashReserve) / (1 + commissionRate)`.
This holds because each buy's affordability is checked against a running cash
figure decremented by the estimated cost of every previously accepted buy,
and skipped buys place no order. -/
theorem C10_running_cash_budget (cfg : TradingConfig) (account : AccountConfig)
    (env : RebEnv) (hrate : 0 ≤ cfg.commission_rate) :
    ((buyPlacedTrades (rebalance_account cfg account env).2).map tcost).sum ≤
      availableCashFormula cfg (env.snapshots 1).cash_balance := by
  have hnn := availableCashFormula_nonneg cfg (env.snapshots 1).cash_balance hrate
  simp only [rebalance_account]
  split
  · simpa [buyPlacedTrades] using hnn
  · split
    · rw [buyPlacedTrades_append, buyPlacedTrades_cancels, buyPlacedTrades_sells]
      simpa using hnn
    · split
      · rw [buyPlacedTrades_append, buyPlacedTrades_cancels, buyPlacedTrades_sells]
        simpa using hnn
      · split
        · rw [buyPlacedTrades_append, buyPlacedTrades_cancels, buyPlacedTrades_sells]
          simpa using hnn
        · split
          · rw [buyPlacedTrades_append, buyPlacedTrades_append, buyPlacedTrades_cancels,
              buyPlacedTrades_sells, buyPlacedTrades_buys, List.append_nil,
              List.nil_append, map_tcost_assignIds]
            exact selectAffordableBuys_sum _ _ _ _ hnn
          · rw [buyPlacedTrades_append, buyPlacedTrades_append, buyPlacedTrades_cancels,
              buyPlacedTrades_sells, buyPlacedTrades_buys, List.append_nil,
              List.nil_append, map_tcost_assignIds]
            exact selectAffordableBuys_sum _ _ _ _ hnn

/-- Witness for C10 on the happy-path environment, applying
`C10_running_cash_budget`. -/
theorem C10_running_cash_budget_witness :
    0 ≤ defaultTradingConfig.commission_rate ∧
    ((buyPlacedTrades (rebalance_account defaultTradingConfig acctDefault happyEnv).2).map
      tcost).sum ≤
      availableCashFormula defaultTradingConfig (happyEnv.snapshots 1).cash_balance :=
  ⟨by with_unfolding_all decide,
   C10_running_cash_budget defaultTradingConfig acctDefault happyEnv
     (by with_unfolding_all decide)⟩

/-! ## C4 — market data retry loop (`client.py`) -/

/-- `validPx` only returns positive prices. -/
theorem validPx_pos (o : Option ℚ) (b : ℚ) (h : validPx o = some b) : 0 < b := by
  cases o with
  | none => exact Option.noConfusion h
  | some q =>
    simp only [validPx] at h
    split at h
    · exact Option.noConfusion h
    next hq =>
      obtain rfl := Option.some.inj h
      exact not_le.mp hq

/-- The still-pending symbols after one `processTickers` pass are exactly the
input symbols whose bid is invalid. -/
theorem processTickers_pending (cfg : IBKRConfig) (t : String → TickerData)
    (l : List String) :
    (processTickers cfg t l).2 = l.filter (fun s => (validPx (t s).bid).isNone) := by
  induction l with
  | nil => rfl
  | cons s rest ih =>
    simp only [processTickers, List.filter_cons]
    cases h : validPx (t s).bid with
    | none => simp [h, ih]
    | some b => simp [h, ih]

/-- Every price produced by one `processTickers` pass has a positive bid and
carries a symbol from the input list. -/
theorem processTickers_sound (cfg : IBKRConfig) (t : String → TickerData)
    (l : List String) :
    ∀ p ∈ (processTickers cfg t l).1, (∃ b, p.bid = some b ∧ 0 < b) ∧ p.symbol ∈ l := by
  induction l with
  | nil => intro p hp; exact absurd hp (by simp [processTickers])
  | cons s rest ih =>
    intro p hp
    simp only [processTickers] at hp
    cases h : validPx (t s).bid with
    | none =>
      simp only [h] at hp
      obtain ⟨hv, hm⟩ := ih p hp
      exact ⟨hv, List.mem_cons_of_mem _ hm⟩
    | some b =>
      simp only [h] at hp
      rcases List.mem_cons.mp hp with rfl | hp2
      · exact ⟨⟨b, rfl, validPx_pos _ _ h⟩, List.mem_cons_self _ _⟩
      · obtain ⟨hv, hm⟩ := ih p hp2
        exact ⟨hv, List.mem_cons_of_mem _ hm⟩

/-- Every input symbol of a `processTickers` pass either stays pending or has
a produced price. -/
theorem processTickers_covers (cfg : IBKRConfig) (t : String → TickerData)
    (l : List String) :
    ∀ s ∈ l, s ∈ (processTickers cfg t l).2 ∨
      ∃ p ∈ (processTickers cfg t l).1, p.symbol = s := by
  induction l with
  | nil => intro s hs; exact absurd hs (by simp)
  | cons s0 rest ih =>
    intro s hs
    cases h : validPx (t s0).bid with
    | none =>
      simp only [processTickers, h]
      rcases List.mem_cons.mp hs with rfl | hs2
      · exact Or.inl (List.mem_cons_self _ _)
      · rcases ih s hs2 with hp | ⟨p, hp1, hp2⟩
        · exact Or.inl (List.mem_cons_of_mem _ hp)
        · exact Or.inr ⟨p, hp1, hp2⟩
    | some b =>
      simp only [processTickers, h]
      rcases List.mem_cons.mp hs with rfl | hs2
      · exact Or.inr ⟨_, List.mem_cons_self _ _, rfl⟩
      · rcases ih s hs2 with hp | ⟨p, hp1, hp2⟩
        · exact Or.inl hp
        · exact Or.inr ⟨p, List.mem_cons_of_mem _ hp1, hp2⟩

/-- `fetchLoop` never drops an already-successful price. -/
theorem fetchLoop_acc_sub (cfg : IBKRConfig) (tick : ℕ → String → TickerData) :
    ∀ (fuel a : ℕ) (pending : List String) (acc : List ContractPrice),
      ∀ p ∈ acc, p ∈ (fetchLoop cfg tick fuel a pending acc).1 := by
  intro fuel
  induction fuel with
  | zero => intro a pending acc p hp; exact hp
  | succ fuel ih =>
    intro a pending acc p hp
    simp only [fetchLoop]
    split
    · exact hp
    · exact ih (a + 1) _ _ p (List.mem_append_left _ hp)

/-- Every price accumulated by `fetchLoop` has a positive bid (given the
accumulator already does). -/
theorem fetchLoop_sound (cfg : IBKRConfig) (tick : ℕ → String → TickerData) :
    ∀ (fuel a : ℕ) (pending : List String) (acc : List ContractPrice),
      (∀ p ∈ acc, ∃ b, p.bid = some b ∧ 0 < b) →
      ∀ p ∈ (fetchLoop cfg tick fuel a pending acc).1, ∃ b, p.bid = some b ∧ 0 < b := by
  intro fuel
  induction fuel with
  | zero => intro a pending acc hacc p hp; exact hacc p hp
  | succ fuel ih =>
    intro a pending acc hacc p hp
    simp only [fetchLoop] at hp
    split at hp
    · exact hacc p hp
    · refine ih (a + 1) _ _ ?_ p hp
      intro q hq
      rcases List.mem_append.mp hq with hq | hq
      · exact hacc q hq
      · exact (processTickers_sound cfg (tick a) pending q hq).1

/-- Every pending symbol either remains pending at the end of `fetchLoop` or
has an accumulated price. -/
theorem fetchLoop_covers (cfg : IBKRConfig) (tick : ℕ → String → TickerData) :
    ∀ (fuel a : ℕ) (pending : List String) (acc : List ContractPrice),
      ∀ s ∈ pending, s ∈ (fetchLoop cfg tick fuel a pending acc).2.1 ∨
        ∃ p ∈ (fetchLoop cfg tick fuel a pending acc).1, p.symbol = s := by
  intro fuel
  induction fuel with
  | zero => intro a pending acc s hs; exact Or.inl hs
  | succ fuel ih =>
    intro a pending acc s hs
    simp only [fetchLoop]
    split
    · exact Or.inl hs
    · rcases processTickers_covers cfg (tick a) pending s hs with hp | ⟨p, hp1, hp2⟩
      · rcases ih (a + 1) (processTickers cfg (tick a) pending).2
          (acc ++ (processTickers cfg (tick a) pending).1) s hp with h1 | h2
        · exact Or.inl h1
        · exact Or.inr h2
      · exact Or.inr ⟨p,
          fetchLoop_acc_sub cfg tick fuel (a + 1) _ _ p (List.mem_append_right _ hp1), hp2⟩

/-- The request trace of one unfolding of `fetchLoop` on a non-empty pending
list. -/
theorem fetchLoop_reqs_cons (cfg : IBKRConfig) (tick : ℕ → String → TickerData)
    (fuel a : ℕ) (x : String) (xs : List String) (acc : List ContractPrice) :
    (fetchLoop cfg tick (fuel + 1) a (x :: xs) acc).2.2 =
      (x :: xs) :: (fetchLoop cfg tick fuel (a + 1) (processTickers cfg (tick a) (x :: xs)).2
          (acc ++ (processTickers cfg (tick a) (x :: xs)).1)).2.2 := rfl

/-- `fetchLoop` makes at most `fuel` batch requests. -/
theorem fetchLoop_len (cfg : IBKRConfig) (tick : ℕ → String → TickerData) :
    ∀ (fuel a : ℕ) (pending : List String) (acc : List ContractPrice),
      (fetchLoop cfg tick fuel a pending acc).2.2.length ≤ fuel := by
  intro fuel
  induction fuel with
  | zero => intro a pending acc; exact Nat.le_refl 0
  | succ fuel ih =>
    intro a pending acc
    cases pending with
    | nil => exact Nat.zero_le _
    | cons x xs =>
      simp only [fetchLoop_reqs_cons, List.length_cons]
      exact Nat.succ_le_succ (ih (a + 1) _ _)

/-- The first batch `fetchLoop` requests (if it requests at all) is the whole
pending list. -/
theorem fetchLoop_head (cfg : IBKRConfig) (tick : ℕ → String → TickerData) :
    ∀ (fuel a : ℕ) (pending : List String) (acc : List ContractPrice),
      (fetchLoop cfg tick fuel a pending acc).2.2 ≠ [] →
      (fetchLoop cfg tick fuel a pending acc).2.2.getD 0 [] = pending := by
  intro fuel
  cases fuel with
  | zero => intro a pending acc h; exact absurd rfl h
  | succ fuel =>
    intro a pending acc h
    cases pending with
    | nil => exact absurd rfl h
    | cons x xs => rfl

/-- Each batch `fetchLoop` requests after the first is exactly the subset of
the previous batch whose bid was invalid on that previous attempt. -/
theorem fetchLoop_chain (cfg : IBKRConfig) (tick : ℕ → String → TickerData) :
    ∀ (fuel a : ℕ) (pending : List String) (acc : List ContractPrice) (j : ℕ),
      j + 1 < (fetchLoop cfg tick fuel a pending acc).2.2.length →
      (fetchLoop cfg tick fuel a pending acc).2.2.getD (j + 1) [] =
        ((fetchLoop cfg tick fuel a pending acc).2.2.getD j []).filter
          (fun s => (validPx (tick (a + j) s).bid).isNone) := by
  intro fuel
  induction fuel with
  | zero => intro a pending acc j hj; exact absurd hj (by simp [fetchLoop])
  | succ fuel ih =>
    intro a pending acc j hj
    cases pending with
    | nil =>
      exact absurd hj (by simp [fetchLoop])
    | cons x xs =>
      cases j with
      | zero =>
        have hne : (fetchLoop cfg tick fuel (a + 1) (processTickers cfg (tick a) (x :: xs)).2
            (acc ++ (processTickers cfg (tick a) (x :: xs)).1)).2.2 ≠ [] := by
          intro hnil
          rw [fetchLoop_reqs_cons, hnil] at hj
          simp at hj
        simp only [fetchLoop_reqs_cons, List.getD_cons_succ, List.getD_cons_zero]
        rw [fetchLoop_head cfg tick fuel (a + 1) _ _ hne, processTickers_pending]
        simp
      | succ j =>
        simp only [fetchLoop_reqs_cons, List.getD_cons_succ]
        simp only [fetchLoop_reqs_cons, List.length_cons] at hj
        have hmain := ih (a + 1) (processTickers cfg (tick a) (x :: xs)).2
          (acc ++ (processTickers cfg (tick a) (x :: xs)).1) j (Nat.lt_of_succ_lt_succ hj)
        have harith : a + 1 + j = a + (j + 1) := by omega
        rw [harith] at hmain
        exact hmain

/-- Inversion of a successful `fetch_prices_with_retry`: the result is the
loop's accumulated prices and no symbol is left pending. -/
theorem fetch_ok_inv (cfg : IBKRConfig) (tick : ℕ → String → TickerData)
    (symbols : List String) (fetched : List ContractPrice)
    (h : (fetch_prices_with_retry cfg tick symbols).1 = Except.ok fetched) :
    fetched = (fetchLoop cfg tick (cfg.market_data_max_retries + 1) 0 symbols []).1 ∧
    (fetchLoop cfg tick (cfg.market_data_max_retries + 1) 0 symbols []).2.1 = [] := by
  simp only [fetch_prices_with_retry] at h
  split at h
  next hemp => exact ⟨(Except.ok.inj h).symm, List.isEmpty_iff.mp hemp⟩
  next hemp => exact Except.noConfusion h

/-- **C4.**  `get_multiple_market_prices` never yields a partial or invalid
price set (assuming every cache entry within TTL has a valid positive bid for
its own symbol, which holds because the cache is only filled from previously
fetched prices): (1) on every successful return each `ContractPrice` has a
present, positive bid, and every requested symbol is covered by some returned
price — so if any symbol still lacked a valid bid after all retries, the call
cannot have succeeded and raises instead; (2) the retry helper makes at most
`market_data_max_retries + 1` batch requests, the first being the full symbol
list, and (3) each later batch re-requests exactly the still-invalid subset of
the previous one. -/
theorem C4_retry_all_or_nothing (cfg : IBKRConfig) (tick : ℕ → String → TickerData)
    (qualifies : String → Bool) (cache : String → Option ContractPrice)
    (symbols : List String) (use_cache : Bool)
    (hcache : ∀ s p, cache s = some p → (∃ b, p.bid = some b ∧ 0 < b) ∧ p.symbol = s) :
    (∀ prices, get_multiple_market_prices cfg tick qualifies cache symbols use_cache =
        Except.ok prices →
      (∀ p ∈ prices, ∃ b, p.bid = some b ∧ 0 < b) ∧
      (∀ s ∈ symbols, ∃ p ∈ prices, p.symbol = s)) ∧
    ((fetch_prices_with_retry cfg tick symbols).2.length ≤ cfg.market_data_max_retries + 1) ∧
    ((fetch_prices_with_retry cfg tick symbols).2 ≠ [] →
      (fetch_prices_with_retry cfg tick symbols).2.getD 0 [] = symbols) ∧
    (∀ j, j + 1 < (fetch_prices_with_retry cfg tick symbols).2.length →
      (fetch_prices_with_retry cfg tick symbols).2.getD (j + 1) [] =
        ((fetch_prices_with_retry cfg tick symbols).2.getD j []).filter
          (fun s => (validPx (tick j s).bid).isNone)) := by
  refine ⟨?_, fetchLoop_len cfg tick _ 0 symbols [], fetchLoop_head cfg tick _ 0 symbols [], ?_⟩
  case refine_2 =>
    intro j hj
    have hmain := fetchLoop_chain cfg tick (cfg.market_data_max_retries + 1) 0 symbols [] j hj
    simpa using hmain
  intro prices hok
  cases hb : use_cache with
  | false =>
    rw [hb] at hok
    simp only [get_multiple_market_prices, Bool.false_eq_true, if_false, List.nil_append] at hok
    split at hok
    next hemp =>
      obtain rfl := Except.ok.inj hok
      refine ⟨fun p hp => absurd hp (List.not_mem_nil p), fun s hs => ?_⟩
      rw [List.isEmpty_iff.mp hemp] at hs
      exact absurd hs (List.not_mem_nil s)
    next hemp =>
      split at hok
      · exact Except.noConfusion hok
      · split at hok
        next fetched hfe =>
          obtain rfl := Except.ok.inj hok
          obtain ⟨hfeq, hpend⟩ := fetch_ok_inv cfg tick symbols fetched hfe
          constructor
          · intro p hp
            rw [hfeq] at hp
            exact fetchLoop_sound cfg tick _ 0 symbols []
              (fun q hq => absurd hq (List.not_mem_nil q)) p hp
          · intro s hs
            rcases fetchLoop_covers cfg tick (cfg.market_data_max_retries + 1) 0 symbols [] s hs
              with hleft | ⟨p, hp1, hp2⟩
            · rw [hpend] at hleft
              exact absurd hleft (List.not_mem_nil s)
            · exact ⟨p, by rw [hfeq]; exact hp1, hp2⟩
        next hfe => exact Except.noConfusion hok
  | true =>
    rw [hb] at hok
    simp only [get_multiple_market_prices, reduceIte] at hok
    split at hok
    next hemp =>
      obtain rfl := Except.ok.inj hok
      constructor
      · intro p hp
        obtain ⟨s, hs, hcs⟩ := List.mem_filterMap.mp hp
        exact (hcache s p hcs).1
      · intro s hs
        have hfe : symbols.filter (fun s => (cache s).isNone) = [] :=
          List.isEmpty_iff.mp hemp
        cases hcs : cache s with
        | none =>
          have hmem : s ∈ symbols.filter (fun s => (cache s).isNone) :=
            List.mem_filter.mpr ⟨hs, by rw [hcs]; rfl⟩
          rw [hfe] at hmem
          exact absurd hmem (List.not_mem_nil s)
        | some p =>
          exact ⟨p, List.mem_filterMap.mpr ⟨s, hs, hcs⟩, (hcache s p hcs).2⟩
    next hemp =>
      split at hok
      · exact Except.noConfusion hok
      · split at hok
        next fetched hfe =>
          obtain rfl := Except.ok.inj hok
          obtain ⟨hfeq, hpend⟩ :=
            fetch_ok_inv cfg tick (symbols.filter (fun s => (cache s).isNone)) fetched hfe
          constructor
          · intro p hp
            rcases List.mem_append.mp hp with hp | hp
            · obtain ⟨s, hs, hcs⟩ := List.mem_filterMap.mp hp
              exact (hcache s p hcs).1
            · rw [hfeq] at hp
              exact fetchLoop_sound cfg tick _ 0 (symbols.filter (fun s => (cache s).isNone)) []
                (fun q hq => absurd hq (List.not_mem_nil q)) p hp
          · intro s hs
            cases hcs : cache s with
            | some p =>
              exact ⟨p, List.mem_append_left _ (List.mem_filterMap.mpr ⟨s, hs, hcs⟩),
                (hcache s p hcs).2⟩
            | none =>
              have hmem : s ∈ symbols.filter (fun s => (cache s).isNone) :=
                List.mem_filter.mpr ⟨hs, by rw [hcs]; rfl⟩
              rcases fetchLoop_covers cfg tick (cfg.market_data_max_retries + 1) 0
                (symbols.filter (fun s => (cache s).isNone)) [] s hmem with hleft | ⟨p, hp1, hp2⟩
              · rw [hpend] at hleft
                exact absurd hleft (List.not_mem_nil s)
              · exact ⟨p, List.mem_append_right _ (by rw [hfeq]; exact hp1), hp2⟩
        next hfe => exact Except.noConfusion hok

/-- C4 witness configuration: one retry allowed. -/
def c4w_cfg : IBKRConfig := { market_data_max_retries := 1, synthetic_ask_offset_usd := 1 }

/-- C4 witness ticker: every symbol has an invalid (missing) bid on attempt 0
and a valid bid of 10 (with invalid ask) on every later attempt. -/
def c4w_tick : ℕ → String → TickerData := fun k _ =>
  if k = 0 then { bid := none, ask := none, last := none, close := none }
  else { bid := some 10, ask := none, last := none, close := none }

/-- C4 witness cache: empty. -/
def c4w_cache : String → Option ContractPrice := fun _ => none

/-- Witness for C4, applying `C4_retry_all_or_nothing` to one symbol whose
bid is invalid on the first attempt and valid on the retry. -/
theorem C4_retry_all_or_nothing_witness :
    (∀ s p, c4w_cache s = some p → (∃ b, p.bid = some b ∧ 0 < b) ∧ p.symbol = s) ∧
    ((∀ prices, get_multiple_market_prices c4w_cfg c4w_tick (fun _ => true) c4w_cache
        ["AAPL"] false = Except.ok prices →
      (∀ p ∈ prices, ∃ b, p.bid = some b ∧ 0 < b) ∧
      (∀ s ∈ ["AAPL"], ∃ p ∈ prices, p.symbol = s)) ∧
    ((fetch_prices_with_retry c4w_cfg c4w_tick ["AAPL"]).2.length ≤
      c4w_cfg.market_data_max_retries + 1) ∧
    ((fetch_prices_with_retry c4w_cfg c4w_tick ["AAPL"]).2 ≠ [] →
      (fetch_prices_with_retry c4w_cfg c4w_tick ["AAPL"]).2.getD 0 [] = ["AAPL"]) ∧
    (∀ j, j + 1 < (fetch_prices_with_retry c4w_cfg c4w_tick ["AAPL"]).2.length →
      (fetch_prices_with_retry c4w_cfg c4w_tick ["AAPL"]).2.getD (j + 1) [] =
        ((fetch_prices_with_retry c4w_cfg c4w_tick ["AAPL"]).2.getD j []).filter
          (fun s => (validPx (c4w_tick j s).bid).isNone))) :=
  ⟨fun _ _ h => Option.noConfusion h,
   C4_retry_all_or_nothing c4w_cfg c4w_tick (fun _ => true) c4w_cache ["AAPL"] false
     (fun _ _ h => Option.noConfusion h)⟩

/-- C1 snapshot: $10,000 account, $213.6856 cash, and a filler position FILL
within its allocation threshold so it yields no trade. -/
def c1_snapshot : AccountSnapshot :=
  { account_id := "U1234567", total_value := 10000, cash_balance := 2136856/10000
    settled_cash := 0
    positions := [{ symbol := "FILL", quantity := 96, market_price := 100, market_value := 9600 }] }

/-- C1 allocations (summing to exactly 1): one larger BIG target and three
equal smaller targets, plus the FILL remainder already held. -/
def c1_allocations : List AllocationItem :=
  [ { symbol := "BIG", allocation := 67/6600 },
    { symbol := "S1", allocation := 67/11000 },
    { symbol := "S2", allocation := 67/11000 },
    { symbol := "S3", allocation := 67/11000 },
    { symbol := "FILL", allocation := 32062/33000 } ]

/-- C1 prices. -/
def c1_prices : List ContractPrice :=
  [mkPrice "BIG" 2 2, mkPrice "S1" 30 30, mkPrice "S2" 30 30, mkPrice "S3" 30 30,
   mkPrice "FILL" 100 100]

/-- The trade list `calculate_trades` produces on the C1 input. -/
def c1_result : TradeCalculationResult :=
  { trades := [
      { symbol := "BIG", quantity := 19, current_shares := 0, target_value := 201/2,
        current_value := 0, price := 201/100, order_type := OrderType.LIMIT },
      { symbol := "S1", quantity := 1, current_shares := 0, target_value := 603/10,
        current_value := 0, price := 603/20, order_type := OrderType.LIMIT },
      { symbol := "S2", quantity := 1, current_shares := 0, target_value := 603/10,
        current_value := 0, price := 603/20, order_type := OrderType.LIMIT },
      { symbol := "S3", quantity := 1, current_shares := 0, target_value := 603/10,
        current_value := 0, price := 603/20, order_type := OrderType.LIMIT }],
    warnings := [] }

/-- **C1 (failing input).**  On this input `availableCash = 112.56` and the
scaled buys are {BIG: 19 shares @ 2.01, S1/S2/S3: 1 share @ 30.15}: the total
buy cost 128.64 exceeds `availableCash` although one share of every buy
(92.46) fits the budget — so the claimed exception ("unless even one share per
buy exceeds the budget") does not apply — and a 19-share trade remains that
further decrements would have fitted.  The single walk of the fine-tuning
loop (`for trade in scaleable_scaled`) decrements each trade at most once
instead of iterating "until the total fits". -/
theorem C1_scaling_exceeds_available_cash :
    calculate_trades defaultTradingConfig c1_snapshot c1_allocations c1_prices
      acctDefault Phase.all = Except.ok c1_result ∧
    availableCashFormula defaultTradingConfig c1_snapshot.cash_balance = 2814/25 ∧
    buyCostOf c1_result.trades = 3216/25 ∧
    ¬ buyCostOf c1_result.trades ≤ availableCashFormula defaultTradingConfig c1_snapshot.cash_balance ∧
    ((c1_result.trades.filter (fun t => 0 < t.quantity)).map (·.price)).sum ≤
      availableCashFormula defaultTradingConfig c1_snapshot.cash_balance ∧
    (∃ t ∈ c1_result.trades, 1 < t.quantity) := by
  refine ⟨by with_unfolding_all decide,
    Rat.ext (by with_unfolding_all decide) (by with_unfolding_all decide),
    Rat.ext (by with_unfolding_all decide) (by with_unfolding_all decide),
    by with_unfolding_all decide, by with_unfolding_all decide,
    by with_unfolding_all decide⟩

end ZRebal
